import Mathlib

/-!
Verification of the customer-lifecycle analytics engine (src/app.py) against
its natural-language specification.

The Python source is a pandas/streamlit application.  We shallowly embed the
analytical core: dataframes become lists of records, pandas column arithmetic
becomes per-record arithmetic over ℤ/ℚ (floats are modelled as exact
rationals), NaN-able columns become Option, and string columns are Lean
Strings (client ids are taken post-normalization where a component receives
already-normalized ids).  Each definition mirrors one function or code block
of src/app.py, named after it where Lean allows.
-/

/-! ## Shared helpers -/

/-- Python round-half-to-even (the built-in round, also numpy/pandas rounding),
modelled on exact rationals. -/
def roundHalfEven (q : ℚ) : ℤ :=
  let f := ⌊q⌋
  let frac := q - (f : ℚ)
  if frac < 1/2 then f
  else if 1/2 < frac then f + 1
  else if f % 2 = 0 then f else f + 1

/-- Pandas Series.round(2): round half-to-even at two decimal places. -/
def round2 (q : ℚ) : ℚ := (roundHalfEven (q * 100) : ℚ) / 100

/-- Pandas Series.round(3): round half-to-even at three decimal places. -/
def round3 (q : ℚ) : ℚ := (roundHalfEven (q * 1000) : ℚ) / 1000

/-- Pandas Series.round(1): round half-to-even at one decimal place. -/
def round1 (q : ℚ) : ℚ := (roundHalfEven (q * 10) : ℚ) / 10

/-! ## Behavioral classifier (src/app.py lines 892-927)

The classifier receives per-client (volume, regularity) pairs for one
evaluation window, computes volume terciles over the positive-volume clients
and assigns one of 8 clusters, defaulting to the "did not purchase" label
(Russian: Не покупали) for everyone else. -/

/-- Per-client metrics row as assembled by the per_client dataframe of the
cluster block of src/app.py: normalized client id, window volume (sum of the
integer quantity column), count of distinct active periods, and the
regularity ratio. -/
structure PerClientRow where
  client : String
  volume : ℤ
  activePeriods : ℕ
  regularity : ℚ
deriving DecidableEq, Repr

/-- Sample quantile with linear interpolation, exactly as
pandas.Series.quantile with the default linear interpolation: sort the
values; with n values and fraction p, let h = p * (n - 1); the result is
s[floor h] + (h - floor h) * (s[floor h + 1] - s[floor h]).  On an empty
series the embedding returns 0 (pandas would return NaN; the source only
uses the value when the series is nonempty). -/
def quantileLinear (xs : List ℚ) (p : ℚ) : ℚ :=
  let s := xs.insertionSort (· ≤ ·)
  let n := xs.length
  let h : ℚ := p * ((n : ℚ) - 1)
  let lo := (⌊h⌋).toNat
  let frac : ℚ := h - (⌊h⌋ : ℚ)
  s.getD lo 0 + frac * (s.getD (lo + 1) (s.getD lo 0) - s.getD lo 0)

/-- The 8 behavioral cluster names, in the order of CLUSTER_8_ORDER in
src/app.py. -/
def CLUSTER_8_ORDER : List String :=
  ["Активные (VIP)",
   "Регулярные с высоким объёмом",
   "Крупные нерегулярные",
   "Средняя активность",
   "Периодические (малый объём)",
   "Низкая активность",
   "Разовая крупная покупка",
   "Разовая покупка"]

/-- All nine labels the classifier can emit: the 8 clusters plus
"Не покупали" (did not purchase). -/
def allClusterNames : List String := CLUSTER_8_ORDER ++ ["Не покупали"]

/-- Literal embedding of the nested-if body of _assign_cluster in src/app.py
(the regularity thresholds r33 = 1/3 and r67 = 2/3 are the fixed local
constants of the source). -/
def assignCluster (v33 v67 : ℚ) (v r : ℚ) : String :=
  if v ≥ v67 then
    if r ≥ 2/3 then "Активные (VIP)"
    else if r ≥ 1/3 then "Регулярные с высоким объёмом"
    else "Разовая крупная покупка"
  else if v ≥ v33 then
    if r ≥ 2/3 then "Средняя активность"
    else if r ≥ 1/3 then "Средняя активность"
    else "Крупные нерегулярные"
  else
    if r ≥ 2/3 then "Периодические (малый объём)"
    else if r ≥ 1/3 then "Низкая активность"
    else "Разовая покупка"

/-- The whole cluster-assignment block of src/app.py: default everyone to
"Не покупали", restrict to the positive-volume clients (df_fit), compute the
1/3 and 2/3 volume quantiles over them, and label each positive-volume
client with _assign_cluster.  (When df_fit is empty the source skips the
assignment entirely, which coincides with this embedding because no client
then satisfies 0 < volume.) -/
def assignClusters (customers : List PerClientRow) : List (PerClientRow × String) :=
  let fitVols := (customers.filter (fun c => 0 < c.volume)).map (fun c => (c.volume : ℚ))
  let v33 := quantileLinear fitVols (1/3)
  let v67 := quantileLinear fitVols (2/3)
  customers.map (fun c =>
    (c, if 0 < c.volume then assignCluster v33 v67 (c.volume : ℚ) c.regularity
        else "Не покупали"))

/-- The decision table of spec section 4.2, transcribed row by row from the
spec words: first matching row wins, every lower-bound comparison inclusive
(>=).  Returns the empty string when no row matches (never happens). -/
def specClusterTable (v33 v67 : ℚ) (v r : ℚ) : String :=
  if v ≥ v67 ∧ r ≥ 2/3 then "Активные (VIP)"
  else if v ≥ v67 ∧ 1/3 ≤ r ∧ r < 2/3 then "Регулярные с высоким объёмом"
  else if v ≥ v67 ∧ r < 1/3 then "Разовая крупная покупка"
  else if v33 ≤ v ∧ v < v67 ∧ r ≥ 1/3 then "Средняя активность"
  else if v33 ≤ v ∧ v < v67 ∧ r < 1/3 then "Крупные нерегулярные"
  else if v < v33 ∧ r ≥ 2/3 then "Периодические (малый объём)"
  else if v < v33 ∧ 1/3 ≤ r ∧ r < 2/3 then "Низкая активность"
  else if v < v33 ∧ r < 1/3 then "Разовая покупка"
  else ""

theorem assignCluster_eq_specTable (v33 v67 v r : ℚ) :
    assignCluster v33 v67 v r = specClusterTable v33 v67 v r := by
  unfold assignCluster specClusterTable
  rcases le_or_lt v67 v with h67 | h67 <;>
    rcases le_or_lt v33 v with h33 | h33 <;>
      rcases le_or_lt (2/3 : ℚ) r with hr67 | hr67 <;>
        rcases le_or_lt (1/3 : ℚ) r with hr33 | hr33 <;>
          simp_all [le_of_lt, not_le.mpr] <;> linarith

theorem assignCluster_mem (v33 v67 v r : ℚ) :
    assignCluster v33 v67 v r ∈ CLUSTER_8_ORDER := by
  unfold assignCluster CLUSTER_8_ORDER
  split_ifs <;> simp

theorem assignCluster_ne_nopurchase (v33 v67 v r : ℚ) :
    assignCluster v33 v67 v r ≠ "Не покупали" := by
  unfold assignCluster
  split_ifs <;> decide

/-- Claim C1 (amended) — Behavioral classifier.  For every customer of the
cohort, the label produced by the cluster-assignment block is "Не покупали"
exactly when volume ≤ 0 — not exactly when volume = 0 as originally claimed,
since negative volumes are retained by loading (see C10) and a customer with
negative volume is excluded from df_fit and keeps the default label;
positive-volume customers receive exactly the label of the spec section 4.2
decision table (first matching row, inclusive lower bounds, with v33 and v67
the 1/3 and 2/3 linear-interpolation sample quantiles of volume over
positive-volume customers and r33 = 1/3, r67 = 2/3 fixed); every customer
receives exactly one label, drawn from the 8 clusters plus "Не покупали". -/
theorem C1_behavioral_classifier (customers : List PerClientRow)
    (p : PerClientRow × String) (hp : p ∈ assignClusters customers) :
    (p.2 = "Не покупали" ↔ p.1.volume ≤ 0) ∧
    (0 < p.1.volume →
      p.2 = specClusterTable
        (quantileLinear ((customers.filter (fun c => 0 < c.volume)).map
          (fun c => (c.volume : ℚ))) (1/3))
        (quantileLinear ((customers.filter (fun c => 0 < c.volume)).map
          (fun c => (c.volume : ℚ))) (2/3))
        (p.1.volume : ℚ) p.1.regularity) ∧
    p.2 ∈ allClusterNames ∧
    (assignClusters customers).map Prod.fst = customers := by
  unfold assignClusters at hp
  simp only [List.mem_map] at hp
  obtain ⟨c, hc, hpc⟩ := hp
  subst hpc
  refine ⟨?_, ?_, ?_, ?_⟩
  · by_cases hpos : 0 < c.volume
    · simp only [hpos, if_pos]
      constructor
      · intro h; exact absurd h (assignCluster_ne_nopurchase _ _ _ _)
      · intro h; exact absurd h (not_le.mpr hpos)
    · rw [if_neg hpos]
      simp [not_lt.mp hpos]
  · intro hpos
    simp only [hpos, if_pos]
    exact assignCluster_eq_specTable _ _ _ _
  · by_cases hpos : 0 < c.volume
    · simp only [hpos, if_pos, allClusterNames]
      exact List.mem_append_left _ (assignCluster_mem _ _ _ _)
    · simp [hpos, allClusterNames]
  · unfold assignClusters
    simp only [List.map_map]
    exact List.map_id customers

/-- Witness for C1: a concrete two-customer cohort; the zero-volume customer
is labeled "Не покупали". -/
theorem C1_behavioral_classifier_witness :
    ((⟨"c2", 0, 0, 0⟩ : PerClientRow), "Не покупали").2 = "Не покупали" :=
  (C1_behavioral_classifier
    [⟨"c1", 5, 2, 1⟩, ⟨"c2", 0, 0, 0⟩]
    ((⟨"c2", 0, 0, 0⟩ : PerClientRow), "Не покупали")
    (List.Mem.tail _ (List.Mem.head _))).1.mpr (by decide)

/-- Counterexample to the original C1: a reachable customer with negative
volume −3 (negative quantities survive loading, see C10, and sum through the
aggregator) is labeled "Не покупали" although its volume is not 0, refuting
"cluster(c) = did-not-purchase iff volume(c) = 0". -/
theorem C1_counterexample_negative_volume :
    ((⟨"c", -3, 0, 0⟩ : PerClientRow), "Не покупали") ∈
      assignClusters [⟨"c", -3, 0, 0⟩] ∧ ((-3 : ℤ) ≠ 0) := by
  refine ⟨?_, by decide⟩
  have h : assignClusters [⟨"c", -3, 0, 0⟩] =
      [((⟨"c", -3, 0, 0⟩ : PerClientRow), "Не покупали")] := by
    unfold assignClusters
    norm_num
  rw [h]
  exact List.Mem.head _

/-! ## Window aggregator (src/app.py lines 838-890)

Transactions are rows of the period-annotated dataframes df1_with_period /
df2_with_period: normalized client id, trimmed category, optional period
rank (the left-merge against the timeline can in principle leave it null)
and integer quantity. -/

/-- A period-annotated transaction row. -/
structure Txn where
  client : String
  category : String
  rank : Option ℕ
  qty : ℤ
deriving DecidableEq, Repr

/-- Literal embedding of _filter_to_dynamic_window from src/app.py: keeps
rows whose normalized client id is in the cohort set and whose
delta = period_rank - r0 is non-null with 0 ≤ delta < K. -/
def filterToDynamicWindow (cohortSet : List String) (r0 : String → Option ℕ)
    (K : ℕ) (txns : List Txn) : List Txn :=
  txns.filter (fun t =>
    decide (t.client ∈ cohortSet) &&
    (match r0 t.client, t.rank with
     | some a, some pr => decide (0 ≤ (pr : ℤ) - (a : ℤ)) && decide ((pr : ℤ) - (a : ℤ) < (K : ℤ))
     | _, _ => false))

/-- The parts_p assembly of the cluster block of src/app.py: document-1 rows
restricted to the selected categories present in document 1, document-2
rows restricted to the selected categories present in document 2, each
passed through _filter_to_dynamic_window, then concatenated.  (When one
part has no selected categories the source skips it; the category filter
then keeps nothing, so the concatenation agrees.) -/
def windowTxns (doc1 doc2 : List Txn) (selected cohortSet : List String)
    (r0 : String → Option ℕ) (K : ℕ) : List Txn :=
  filterToDynamicWindow cohortSet r0 K
    (doc1.filter (fun t =>
      t.category ∈ selected.filter (fun c => c ∈ doc1.map Txn.category))) ++
  filterToDynamicWindow cohortSet r0 K
    (doc2.filter (fun t =>
      t.category ∈ selected.filter (fun c => c ∈ doc2.map Txn.category)))

/-- The per_client roster: sorted(cohort_clients_c), i.e. the cohort-client
set laid out as a sorted list of distinct ids. -/
def cohortRoster (cohortSet : List String) : List String :=
  (cohortSet.dedup).insertionSort (· ≤ ·)

/-- The per_client aggregation of the cluster block of src/app.py lines
876-890, including its failure mode.  When df_p is nonempty, the groupby
aggregate (volume = sum of quantity, active_periods = number of distinct
period ranks) is merged back onto the roster with a left join and
fillna(0), which is exactly a per-roster-client filtered aggregate.  When
df_p is empty, the source skips the merge and the unconditional read of
the then-nonexistent volume column at line 887 raises KeyError("volume");
that crash is modelled as none. -/
def perClientMetrics (roster : List String) (txns : List Txn) :
    Option (List (String × ℤ × ℕ)) :=
  if txns.isEmpty then none
  else some (roster.map (fun c =>
    let mine := txns.filter (fun t => t.client = c)
    (c, (mine.map Txn.qty).sum, ((mine.filterMap Txn.rank).dedup).length)))

/-- Boolean form of the qualification predicate of claim C2. -/
def specQualifiesB (cohortSet selected : List String) (r0 : String → Option ℕ)
    (K : ℕ) (t : Txn) : Bool :=
  decide (t.client ∈ cohortSet) && decide (t.category ∈ selected) &&
  (match r0 t.client, t.rank with
   | some a, some pr => decide (0 ≤ (pr : ℤ) - (a : ℤ)) && decide ((pr : ℤ) - (a : ℤ) < (K : ℤ))
   | _, _ => false)

/-- Qualification predicate of claim C2, written from its words: the client
is in the cohort set, the category is in the selected target set, and the
period rank satisfies 0 ≤ period_rank − client_cohort_rank < K. -/
def specQualifies (cohortSet selected : List String) (r0 : String → Option ℕ)
    (K : ℕ) (t : Txn) : Prop :=
  t.client ∈ cohortSet ∧ t.category ∈ selected ∧
  ∃ a pr, r0 t.client = some a ∧ t.rank = some pr ∧
    0 ≤ (pr : ℤ) - (a : ℤ) ∧ (pr : ℤ) - (a : ℤ) < (K : ℤ)

theorem specQualifiesB_eq_true_iff (cohortSet selected : List String)
    (r0 : String → Option ℕ) (K : ℕ) (t : Txn) :
    specQualifiesB cohortSet selected r0 K t = true ↔
      specQualifies cohortSet selected r0 K t := by
  unfold specQualifiesB specQualifies
  rcases h1 : r0 t.client with _ | a <;> rcases h2 : t.rank with _ | pr <;>
    simp [h1, h2, and_assoc]

theorem filterPart_eq (doc : List Txn) (selected cohortSet : List String)
    (r0 : String → Option ℕ) (K : ℕ) :
    filterToDynamicWindow cohortSet r0 K
      (doc.filter (fun t =>
        t.category ∈ selected.filter (fun c => c ∈ doc.map Txn.category))) =
    doc.filter (specQualifiesB cohortSet selected r0 K) := by
  unfold filterToDynamicWindow
  rw [List.filter_filter]
  refine List.filter_congr (fun t ht => ?_)
  have hcat : t.category ∈ doc.map Txn.category := List.mem_map_of_mem _ ht
  unfold specQualifiesB
  cases hr : r0 t.client <;> cases hk : t.rank <;>
    · rw [Bool.eq_iff_iff]
      simp [hr, hk, List.mem_filter, hcat]
      try tauto

theorem windowTxns_eq_filter (doc1 doc2 : List Txn)
    (selected cohortSet : List String) (r0 : String → Option ℕ) (K : ℕ) :
    windowTxns doc1 doc2 selected cohortSet r0 K =
      (doc1 ++ doc2).filter (specQualifiesB cohortSet selected r0 K) := by
  unfold windowTxns
  rw [List.filter_append, filterPart_eq, filterPart_eq]

/-- Claim C2 — Window aggregator (code bug).  On the inputs where at least
one transaction qualifies, the per-client output reports, for every client
c of the cohort roster, volume = sum of quantity and active_periods =
number of distinct period ranks over exactly the transactions of both
tables that satisfy the qualification predicate (client in the cohort set,
category in the selected target set, 0 ≤ period_rank − cohort_rank < K);
every roster client then appears in the output, and a client none of whose
transactions qualifies appears with volume = 0 and active_periods = 0.
But when no transaction at all qualifies, the source crashes with
KeyError("volume") at src/app.py line 887 and no roster client appears in
any output, refuting the claim's unconditional left-join guarantee; the
second conjunct states that failure in general and the last conjunct
evaluates it at a concrete input. -/
theorem C2_window_aggregator (doc1 doc2 : List Txn)
    (selected cohortSet : List String) (r0 : String → Option ℕ) (K : ℕ)
    (c : String) (hc : c ∈ cohortRoster cohortSet)
    (hne : windowTxns doc1 doc2 selected cohortSet r0 K ≠ []) :
    (∃ out, perClientMetrics (cohortRoster cohortSet)
        (windowTxns doc1 doc2 selected cohortSet r0 K) = some out ∧
      ((c,
        ((((doc1 ++ doc2).filter (fun t =>
            specQualifiesB cohortSet selected r0 K t && decide (t.client = c))).map
          Txn.qty).sum),
        (((((doc1 ++ doc2).filter (fun t =>
            specQualifiesB cohortSet selected r0 K t && decide (t.client = c))).filterMap
          Txn.rank).dedup).length)) ∈ out) ∧
      out.map Prod.fst = cohortRoster cohortSet ∧
      ((∀ t ∈ doc1 ++ doc2,
          ¬(specQualifies cohortSet selected r0 K t ∧ t.client = c)) →
        (c, (0 : ℤ), (0 : ℕ)) ∈ out)) ∧
    (∀ (d1 d2 : List Txn) (sel coh : List String) (r0m : String → Option ℕ)
        (Km : ℕ),
      (∀ t ∈ d1 ++ d2, ¬ specQualifies coh sel r0m Km t) →
      perClientMetrics (cohortRoster coh)
        (windowTxns d1 d2 sel coh r0m Km) = none) ∧
    perClientMetrics (cohortRoster ["a"])
      (windowTxns [⟨"a", "X", some 5, 1⟩] [] ["X"] ["a"]
        (fun s => if s = "a" then some 0 else none) 2) = none := by
  have hcrash : ∀ (d1 d2 : List Txn) (sel coh : List String)
      (r0m : String → Option ℕ) (Km : ℕ),
      (∀ t ∈ d1 ++ d2, ¬ specQualifies coh sel r0m Km t) →
      perClientMetrics (cohortRoster coh)
        (windowTxns d1 d2 sel coh r0m Km) = none := by
    intro d1 d2 sel coh r0m Km hq
    have hnil : windowTxns d1 d2 sel coh r0m Km = [] := by
      rw [windowTxns_eq_filter]
      refine List.filter_eq_nil_iff.mpr (fun t ht => ?_)
      intro hcon
      exact hq t ht ((specQualifiesB_eq_true_iff _ _ _ _ t).mp hcon)
    rw [hnil]
    rfl
  refine ⟨?_, hcrash, by decide⟩
  have hkey : ∀ cc : String,
      (windowTxns doc1 doc2 selected cohortSet r0 K).filter
        (fun t => decide (t.client = cc)) =
      (doc1 ++ doc2).filter (fun t =>
        specQualifiesB cohortSet selected r0 K t && decide (t.client = cc)) := by
    intro cc
    rw [windowTxns_eq_filter, List.filter_filter]
    exact List.filter_congr (fun t _ => Bool.and_comm _ _)
  have hne2 : ¬ ((windowTxns doc1 doc2 selected cohortSet r0 K).isEmpty = true) :=
    fun h => hne (List.isEmpty_iff.mp h)
  refine ⟨(cohortRoster cohortSet).map (fun cc =>
      (cc,
        ((((windowTxns doc1 doc2 selected cohortSet r0 K).filter
            (fun t => t.client = cc)).map Txn.qty).sum),
        (((((windowTxns doc1 doc2 selected cohortSet r0 K).filter
            (fun t => t.client = cc)).filterMap Txn.rank).dedup).length))),
    ?_, ?_, ?_, ?_⟩
  · unfold perClientMetrics
    rw [if_neg hne2]
  · refine List.mem_map.mpr ⟨c, hc, ?_⟩
    rw [hkey c]
  · simp only [List.map_map]
    exact List.map_id _
  · intro hnone
    refine List.mem_map.mpr ⟨c, hc, ?_⟩
    have hnil : (windowTxns doc1 doc2 selected cohortSet r0 K).filter
        (fun t => decide (t.client = c)) = [] := by
      rw [hkey c]
      refine List.filter_eq_nil_iff.mpr (fun t ht => ?_)
      intro hcon
      rw [Bool.and_eq_true, decide_eq_true_eq] at hcon
      exact hnone t ht
        ⟨(specQualifiesB_eq_true_iff _ _ _ _ t).mp hcon.1, hcon.2⟩
    rw [hnil]
    rfl

/-- Witness for C2: one in-window transaction of client a on the good path,
and the crash conjunct evaluated at the no-qualifying-transaction input. -/
theorem C2_window_aggregator_witness :
    perClientMetrics (cohortRoster ["a"])
      (windowTxns [⟨"a", "X", some 5, 1⟩] [] ["X"] ["a"]
        (fun s => if s = "a" then some 0 else none) 2) = none :=
  (C2_window_aggregator [⟨"a", "X", some 0, 2⟩] [] ["X"] ["a"]
    (fun s => if s = "a" then some 0 else none) 2 "a" (by decide)
    (by decide)).2.2

/-! ## Regularity denominators (src/app.py lines 834-890 and line 1338) -/

/-- The available_periods series of the cluster block:
(max_rank - client_cohort_rank + 1).clip(lower=0, upper=k_int). -/
def availablePeriods (maxRank r0 K : ℕ) : ℕ :=
  min K (((maxRank : ℤ) - (r0 : ℤ) + 1).toNat)

/-- The classifier regularity of src/app.py lines 889-890:
denominator available_periods with 0 replaced by 1, quotient clipped to
the unit interval. -/
def regularityClassifier (active available : ℕ) : ℚ :=
  min 1 (max 0 ((active : ℚ) / (if available = 0 then 1 else (available : ℚ))))

/-- The lifecycle regularity of src/app.py line 1338:
(active_periods / k_int_lc).clip(0, 1), denominator the fixed horizon K. -/
def regularityLifecycle (active K : ℕ) : ℚ :=
  min 1 (max 0 ((active : ℚ) / (K : ℚ)))

theorem regularityClassifier_eq (active available : ℕ)
    (h : active ≤ available) :
    regularityClassifier active available = (active : ℚ) / (available : ℚ) := by
  unfold regularityClassifier
  rcases Nat.eq_zero_or_pos available with h0 | hpos
  · subst h0
    have ha : active = 0 := Nat.le_zero.mp h
    subst ha
    norm_num
  · have hb : (0 : ℚ) < (available : ℚ) := by exact_mod_cast hpos
    have hle : (active : ℚ) ≤ (available : ℚ) := by exact_mod_cast h
    rw [if_neg (Nat.pos_iff_ne_zero.mp hpos),
      max_eq_right (div_nonneg (by positivity) (le_of_lt hb)),
      min_eq_right ((div_le_one hb).mpr hle)]

theorem regularityLifecycle_eq (active K : ℕ) (h : active ≤ K) :
    regularityLifecycle active K = (active : ℚ) / (K : ℚ) := by
  unfold regularityLifecycle
  rcases Nat.eq_zero_or_pos K with h0 | hpos
  · subst h0
    have ha : active = 0 := Nat.le_zero.mp h
    subst ha
    norm_num
  · have hb : (0 : ℚ) < (K : ℚ) := by exact_mod_cast hpos
    have hle : (active : ℚ) ≤ (K : ℚ) := by exact_mod_cast h
    rw [max_eq_right (div_nonneg (by positivity) (le_of_lt hb)),
      min_eq_right ((div_le_one hb).mpr hle)]

/-- Claim C3 — Two distinct regularity denominators.  The classifier computes
regularity = active_periods / available_periods with available_periods =
clip(max_rank − r0 + 1, 0, K); the lifecycle analyzer computes regularity =
active_periods / K with the fixed horizon as denominator; and the two
conventions genuinely differ (they disagree already at active = 2,
available = 3, K = 5), i.e. they are preserved as distinct per component. -/
theorem C3_regularity_denominators (maxRank r0 K activeC : ℕ)
    (hC : activeC ≤ availablePeriods maxRank r0 K)
    (activeL KL : ℕ) (hL : activeL ≤ KL) :
    regularityClassifier activeC (availablePeriods maxRank r0 K) =
      (activeC : ℚ) / (availablePeriods maxRank r0 K : ℚ) ∧
    regularityLifecycle activeL KL = (activeL : ℚ) / (KL : ℚ) ∧
    regularityClassifier 2 (availablePeriods 2 0 5) ≠ regularityLifecycle 2 5 := by
  refine ⟨regularityClassifier_eq _ _ hC, regularityLifecycle_eq _ _ hL, ?_⟩
  have hav : availablePeriods 2 0 5 = 3 := by decide
  rw [hav, regularityClassifier_eq 2 3 (by norm_num),
    regularityLifecycle_eq 2 5 (by norm_num)]
  norm_num

/-- Witness for C3 at a concrete client: two active periods out of three
available with horizon five. -/
theorem C3_regularity_denominators_witness :
    regularityClassifier 2 (availablePeriods 2 0 5) ≠ regularityLifecycle 2 5 :=
  (C3_regularity_denominators 2 0 5 2 (by decide) 2 5 (by decide)).2.2

/-! ## Cohort assignment (src/app.py lines 812-831) -/

/-- The cohort_clients_c set of src/app.py: for every rank r in the selected
inclusive cohort range (the cohorts_to_use_c slice auto-reorders the two
endpoints, so the range runs from min lo hi to max lo hi), collect the
normalized clients of the document-1 rows whose trimmed period pair is the
period of rank r; a row matches that string pair exactly when its period
annotation is r, since the timeline pairs are in bijection with their
ranks.  The Python set is modelled as a deduplicated list. -/
def cohortClients (doc1 : List Txn) (lo hi : ℕ) : List String :=
  ((List.range' (min lo hi) (max lo hi - min lo hi + 1)).flatMap
    (fun r => (doc1.filter (fun t => t.rank = some r)).map Txn.client)).dedup

/-- The client_cohort_rank series of src/app.py: per client, the minimum
period rank over the document-1 rows of that client (a pandas groupby min,
which skips null ranks, hence the filterMap). -/
def clientCohortRank (doc1 : List Txn) (c : String) : Option ℕ :=
  ((doc1.filter (fun t => t.client = c)).filterMap Txn.rank).min?

/-- Claim C4 — Dual meaning of cohort assignment.  Membership in the cohort
is exactly having at least one document-1 (anchor) transaction whose period
rank lies in the selected inclusive range; yet the individual window anchor
r0 of each member is min(period_rank) over all of that member's document-1
transactions, and that anchor can strictly precede the selected range (the
last conjunct exhibits such an input). -/
theorem C4_cohort_dual_meaning (doc1 : List Txn) (lo hi : ℕ) (c : String)
    (hc : c ∈ cohortClients doc1 lo hi) :
    (∀ d : String, d ∈ cohortClients doc1 lo hi ↔
      ∃ t ∈ doc1, t.client = d ∧
        ∃ r, t.rank = some r ∧ min lo hi ≤ r ∧ r ≤ max lo hi) ∧
    (∃ m, clientCohortRank doc1 c = some m ∧
      (∃ t ∈ doc1, t.client = c ∧ t.rank = some m) ∧
      (∀ t ∈ doc1, t.client = c → ∀ r, t.rank = some r → m ≤ r)) ∧
    (∃ (doc : List Txn) (a b : ℕ) (d : String) (m : ℕ),
      d ∈ cohortClients doc a b ∧ clientCohortRank doc d = some m ∧
      m < min a b) := by
  have hmem : ∀ d : String, d ∈ cohortClients doc1 lo hi ↔
      ∃ t ∈ doc1, t.client = d ∧
        ∃ r, t.rank = some r ∧ min lo hi ≤ r ∧ r ≤ max lo hi := by
    intro d
    unfold cohortClients
    rw [List.mem_dedup]
    simp only [List.mem_flatMap, List.mem_range'_1, List.mem_map,
      List.mem_filter, decide_eq_true_eq]
    constructor
    · rintro ⟨r, ⟨hr1, hr2⟩, t, ⟨ht, htr⟩, htc⟩
      exact ⟨t, ht, htc, r, htr, hr1, by omega⟩
    · rintro ⟨t, ht, htc, r, htr, hr1, hr2⟩
      exact ⟨r, ⟨hr1, by omega⟩, t, ⟨ht, htr⟩, htc⟩
  refine ⟨hmem, ?_, ?_⟩
  · obtain ⟨t, ht, htc, r, htr, _, _⟩ := (hmem c).mp hc
    have hrmem : r ∈ (doc1.filter (fun t => t.client = c)).filterMap Txn.rank := by
      simp only [List.mem_filterMap, List.mem_filter, decide_eq_true_eq]
      exact ⟨t, ⟨ht, htc⟩, htr⟩
    obtain ⟨m, hm0⟩ : ∃ m,
        ((doc1.filter (fun t => t.client = c)).filterMap Txn.rank).min? = some m := by
      rcases hl : (doc1.filter (fun t => t.client = c)).filterMap Txn.rank with _ | ⟨x, xs⟩
      · rw [hl] at hrmem; simp at hrmem
      · rw [hl]; exact ⟨_, List.min?_cons⟩
    have hm := (List.min?_eq_some_iff').mp hm0
    refine ⟨m, ?_, ?_, ?_⟩
    · unfold clientCohortRank
      exact hm0
    · have := hm.1
      simp only [List.mem_filterMap, List.mem_filter, decide_eq_true_eq] at this
      obtain ⟨u, ⟨hu, huc⟩, hur⟩ := this
      exact ⟨u, hu, huc, hur⟩
    · intro u hu huc s hus
      refine hm.2 s ?_
      simp only [List.mem_filterMap, List.mem_filter, decide_eq_true_eq]
      exact ⟨u, ⟨hu, huc⟩, hus⟩
  · refine ⟨[⟨"d", "A", some 0, 1⟩, ⟨"d", "A", some 2, 1⟩], 2, 2, "d", 0,
      ?_, ?_, ?_⟩ <;> decide

/-- Witness for C4: the client with anchor purchases at ranks 0 and 2,
selected range [2,2]; the per-client anchor is the minimum over all its
document-1 ranks. -/
theorem C4_cohort_dual_meaning_witness :
    ∃ m, clientCohortRank
        [⟨"d", "A", some 0, 1⟩, ⟨"d", "A", some 2, 1⟩] "d" = some m ∧
      (∃ t ∈ ([⟨"d", "A", some 0, 1⟩, ⟨"d", "A", some 2, 1⟩] : List Txn),
        t.client = "d" ∧ t.rank = some m) ∧
      (∀ t ∈ ([⟨"d", "A", some 0, 1⟩, ⟨"d", "A", some 2, 1⟩] : List Txn),
        t.client = "d" → ∀ r, t.rank = some r → m ≤ r) :=
  (C4_cohort_dual_meaning
    [⟨"d", "A", some 0, 1⟩, ⟨"d", "A", some 2, 1⟩] 2 2 "d" (by decide)).2.1

/-! ## Half-life (src/app.py lines 1470-1479) -/

/-- The half-life scan of the lifecycle block of src/app.py: walk the
per-period summary rows in ascending t and stop at the first t whose
bought_any_analyzable count divided by the filtered cohort size N drops
below one half; report that t, the percentage at t, and the percentage at
t − 1 (None when t = 0; the source also re-checks that the t − 1 row is
present, which it always is).  The list counts holds the per-period
bought_any_analyzable counts for t = 0 .. K−1. -/
def halfLifeResult (counts : List ℕ) (N : ℕ) : Option (ℕ × ℚ × Option ℚ) :=
  match counts.findIdx? (fun c : ℕ => decide ((c : ℚ) / (N : ℚ) < 1/2)) with
  | none => none
  | some t =>
      some (t, 100 * (counts.getD t 0 : ℚ) / (N : ℚ),
        if t = 0 then none
        else some (100 * (counts.getD (t - 1) 0 : ℚ) / (N : ℚ)))

theorem halfLife_pct_key (N c : ℕ) :
    ((c : ℚ) / (N : ℚ) < 1/2) ↔ (100 * (c : ℚ) / (N : ℚ) < 50) := by
  rw [mul_div_assoc]
  constructor <;> intro h <;> linarith

/-- Claim C5 — Half-life.  For a filtered cohort of size N > 0 over horizon
K, the reported half-life is the smallest t in [0, K) at which the
percentage of clients buying any analyzed category drops below 50%, with
the percentage at t reported as the "at" value and the percentage at t−1 as
the "before" value (absent when t = 0); no period below 50% across the
horizon yields the sustained-above-50% result (none); and the spec scenario
80% / 60% / 40% over N = 10 yields half-life period 2 with before 60 and at
40. -/
theorem C5_half_life (counts : List ℕ) (N K : ℕ) (hN : 0 < N)
    (hK : counts.length = K) :
    (∀ t a b, halfLifeResult counts N = some (t, a, b) ↔
      (t < K ∧ 100 * (counts.getD t 0 : ℚ) / (N : ℚ) < 50 ∧
        (∀ s < t, 50 ≤ 100 * (counts.getD s 0 : ℚ) / (N : ℚ)) ∧
        a = 100 * (counts.getD t 0 : ℚ) / (N : ℚ) ∧
        b = (if t = 0 then none
             else some (100 * (counts.getD (t - 1) 0 : ℚ) / (N : ℚ))))) ∧
    (halfLifeResult counts N = none ↔
      ∀ t < K, 50 ≤ 100 * (counts.getD t 0 : ℚ) / (N : ℚ)) ∧
    halfLifeResult [8, 6, 4] 10 = some (2, 40, some 60) := by
  have hgetD : ∀ (i : ℕ) (h : i < counts.length),
      counts.getD i 0 = counts[i] := by
    intro i h
    exact List.getD_eq_getElem counts 0 h
  refine ⟨?_, ?_, ?_⟩
  · intro t a b
    unfold halfLifeResult
    constructor
    · intro h
      rcases hfi : counts.findIdx? (fun c : ℕ => decide ((c : ℚ) / (N : ℚ) < 1/2))
        with _ | t0
      · rw [hfi] at h; exact absurd h (by simp)
      · rw [hfi] at h
        simp only [Option.some.injEq, Prod.mk.injEq] at h
        obtain ⟨ht0, ha, hb⟩ := h
        subst ht0
        rw [List.findIdx?_eq_some_iff_getElem] at hfi
        obtain ⟨hlen, hp, hmin⟩ := hfi
        refine ⟨hK ▸ hlen, ?_, ?_, ha.symm, hb.symm⟩
        · rw [hgetD t0 hlen]
          exact (halfLife_pct_key N _).mp (by simpa using hp)
        · intro s hs
          have hms := hmin s hs
          rw [hgetD s (lt_trans hs hlen)]
          have hnot : ¬ ((counts[s] : ℚ) / (N : ℚ) < 1/2) := by simpa using hms
          have h2 := (not_iff_not.mpr (halfLife_pct_key N counts[s])).mp hnot
          linarith [not_lt.mp h2]
    · rintro ⟨ht, hlt, hmin, ha, hb⟩
      have hlen : t < counts.length := hK ▸ ht
      have hfi : counts.findIdx? (fun c : ℕ => decide ((c : ℚ) / (N : ℚ) < 1/2))
          = some t := by
        rw [List.findIdx?_eq_some_iff_getElem]
        refine ⟨hlen, ?_, ?_⟩
        · simp only [decide_eq_true_eq]
          exact (halfLife_pct_key N _).mpr (by rw [← hgetD t hlen]; exact hlt)
        · intro j hj
          have hge := hmin j hj
          simp only [Bool.not_eq_true, decide_eq_false_iff_not]
          intro hcon
          have h100 := (halfLife_pct_key N counts[j]).mp hcon
          rw [hgetD j (lt_trans hj hlen)] at hge
          linarith
      rw [hfi, ha, hb]
  · unfold halfLifeResult
    rcases hfi : counts.findIdx? (fun c : ℕ => decide ((c : ℚ) / (N : ℚ) < 1/2))
      with _ | t0
    · simp only [true_iff]
      rw [List.findIdx?_eq_none_iff] at hfi
      intro t ht
      have hlen : t < counts.length := hK ▸ ht
      have hfa := hfi counts[t] (List.getElem_mem hlen)
      have hnot : ¬ ((counts[t] : ℚ) / (N : ℚ) < 1/2) := by simpa using hfa
      have h2 := (not_iff_not.mpr (halfLife_pct_key N counts[t])).mp hnot
      rw [hgetD t hlen]
      linarith [not_lt.mp h2]
    · rw [List.findIdx?_eq_some_iff_getElem] at hfi
      obtain ⟨hlen, hp, _⟩ := hfi
      constructor
      · intro h; exact Option.noConfusion h
      · intro hall
        have hlt : (counts[t0] : ℚ) / (N : ℚ) < 1/2 := by simpa using hp
        have h100 := (halfLife_pct_key N counts[t0]).mp hlt
        have h50 := hall t0 (hK ▸ hlen)
        rw [hgetD t0 hlen] at h50
        exact absurd h100 (not_lt.mpr h50)
  · have hfi : ([8, 6, 4] : List ℕ).findIdx?
        (fun c : ℕ => decide ((c : ℚ) / ((10 : ℕ) : ℚ) < 1/2)) = some 2 := by
      rw [List.findIdx?_eq_some_iff_getElem]
      refine ⟨by norm_num, by norm_num, ?_⟩
      intro j hj
      interval_cases j <;> norm_num
    unfold halfLifeResult
    rw [hfi]
    norm_num [List.getD]

/-- Witness for C5: the spec scenario cohort (counts 8, 6, 4 over N = 10,
K = 3) evaluated through the theorem. -/
theorem C5_half_life_witness :
    halfLifeResult [8, 6, 4] 10 = some (2, 40, some 60) :=
  (C5_half_life [8, 6, 4] 10 3 (by decide) (by decide)).2.2

/-! ## Gap detection (src/app.py lines 1488-1502)

The source walks each client's boolean bought_any_analyzable sequence with
two nested while loops: skip purchase periods; at a non-purchase position
take the whole maximal run of consecutive False values, record its length
(and, in the sustained-gap pass, its start), and resume right after the
run. -/

/-- One step of the gap-collection loop of src/app.py, carrying the absolute
position i of the head of the remaining sequence. -/
def collectGapsFrom : List Bool → ℕ → List (ℕ × ℕ)
  | [], _ => []
  | true :: rest, i => collectGapsFrom rest (i + 1)
  | false :: rest, i =>
      (i, 1 + (rest.takeWhile (fun b => !b)).length) ::
        collectGapsFrom (rest.drop ((rest.takeWhile (fun b => !b)).length))
          (i + 1 + (rest.takeWhile (fun b => !b)).length)
termination_by seq _ => seq.length
decreasing_by
  · simp only [List.length_cons]; omega
  · simp only [List.length_cons, List.length_drop]; omega

/-- The gaps of one client's sequence: (start, length) pairs as collected by
the loop of src/app.py, scanning from position 0. -/
def collectGaps (seq : List Bool) : List (ℕ × ℕ) := collectGapsFrom seq 0

/-- Claim-side notion: s and l delimit a maximal run of consecutive false
values of seq — the run is nonempty, lies inside the sequence, is all
false, and is flanked on both sides by a true value or the sequence
boundary. -/
def maximalFalseRun (seq : List Bool) (s l : ℕ) : Prop :=
  0 < l ∧ s + l ≤ seq.length ∧
  (∀ k < l, seq.getD (s + k) true = false) ∧
  (s = 0 ∨ seq.getD (s - 1) false = true) ∧
  (s + l = seq.length ∨ seq.getD (s + l) false = true)

theorem getD_drop_bool (seq : List Bool) (r j : ℕ) (d : Bool) :
    (seq.drop r).getD j d = seq.getD (r + j) d := by
  simp [List.getD, List.getElem?_drop]

theorem falsePrefix_spec (seq : List Bool) :
    (∀ k < (seq.takeWhile (fun b => !b)).length, seq.getD k true = false) ∧
    (seq.takeWhile (fun b => !b)).length ≤ seq.length ∧
    ((seq.takeWhile (fun b => !b)).length = seq.length ∨
      seq.getD ((seq.takeWhile (fun b => !b)).length) false = true) := by
  induction seq with
  | nil => simp
  | cons b rest ih =>
    cases b with
    | false =>
      obtain ⟨ih1, ih2, ih3⟩ := ih
      refine ⟨?_, ?_, ?_⟩
      · intro k hk
        cases k with
        | zero => simp
        | succ k =>
          simp only [List.takeWhile_cons, Bool.not_false, if_true,
            List.length_cons] at hk
          simp only [List.getD_cons_succ]
          exact ih1 k (by simpa using hk)
      · simp only [List.takeWhile_cons]
        simpa using ih2
      · simp only [List.takeWhile_cons]
        rcases ih3 with h | h
        · left; simpa using h
        · right; simpa using h
    | true => simp

theorem maximalFalseRun_cons_true (rest : List Bool) (u l : ℕ) :
    maximalFalseRun (true :: rest) u l ↔ 1 ≤ u ∧ maximalFalseRun rest (u - 1) l := by
  unfold maximalFalseRun
  constructor
  · rintro ⟨hl, hlen, hall, hleft, hright⟩
    have hu : 1 ≤ u := by
      by_contra h
      have hu0 : u = 0 := by omega
      have := hall 0 hl
      rw [hu0] at this
      simp at this
    obtain ⟨u0, rfl⟩ : ∃ u0, u = u0 + 1 := ⟨u - 1, by omega⟩
    refine ⟨hu, hl, by simp at hlen; omega, ?_, ?_, ?_⟩
    · intro k hk
      have := hall k hk
      simpa [Nat.succ_add, Nat.add_right_comm] using this
    · rcases hleft with h | h
      · omega
      · cases u0 with
        | zero => left; rfl
        | succ u1 =>
          right
          simpa using h
    · rcases hright with h | h
      · left; simp at h ⊢; omega
      · right; simpa [Nat.succ_add, Nat.add_right_comm] using h
  · rintro ⟨hu, hl, hlen, hall, hleft, hright⟩
    obtain ⟨u0, rfl⟩ : ∃ u0, u = u0 + 1 := ⟨u - 1, by omega⟩
    simp only [Nat.add_sub_cancel] at hall hleft hright hlen
    refine ⟨hl, by simp; omega, ?_, ?_, ?_⟩
    · intro k hk
      have := hall k hk
      simpa [Nat.succ_add, Nat.add_right_comm] using this
    · cases u0 with
      | zero => right; simp
      | succ u1 =>
        rcases hleft with h | h
        · omega
        · right; simpa using h
    · rcases hright with h | h
      · left; simp; omega
      · right; simpa [Nat.succ_add, Nat.add_right_comm] using h

theorem maximalFalseRun_drop (seq : List Bool) (r u l : ℕ)
    (hr : r ≤ seq.length) (hu : 1 ≤ u) :
    maximalFalseRun seq (r + u) l ↔ maximalFalseRun (seq.drop r) u l := by
  unfold maximalFalseRun
  rw [List.length_drop]
  constructor
  · rintro ⟨hl, hlen, hall, hleft, hright⟩
    refine ⟨hl, by omega, ?_, ?_, ?_⟩
    · intro k hk
      rw [getD_drop_bool]
      have := hall k hk
      rw [show r + u + k = r + (u + k) by omega] at this
      exact this
    · right
      rw [getD_drop_bool]
      rcases hleft with h | h
      · omega
      · rw [show r + (u - 1) = r + u - 1 by omega]
        exact h
    · rcases hright with h | h
      · left; omega
      · right
        rw [getD_drop_bool, show r + (u + l) = r + u + l by omega]
        exact h
  · rintro ⟨hl, hlen, hall, hleft, hright⟩
    refine ⟨hl, by omega, ?_, ?_, ?_⟩
    · intro k hk
      have := hall k hk
      rw [getD_drop_bool] at this
      rw [show r + u + k = r + (u + k) by omega]
      exact this
    · right
      rcases hleft with h | h
      · omega
      · rw [getD_drop_bool, show r + (u - 1) = r + u - 1 by omega] at h
        exact h
    · rcases hright with h | h
      · left; omega
      · right
        rw [getD_drop_bool, show r + (u + l) = r + u + l by omega] at h
        exact h

theorem not_maximalFalseRun_after_prefix (seq : List Bool) (r l : ℕ)
    (h3 : r = seq.length ∨ seq.getD r false = true) :
    ¬ maximalFalseRun (seq.drop r) 0 l := by
  rintro ⟨hl, hlen, hall, -, -⟩
  rw [List.length_drop] at hlen
  have hr : r < seq.length := by omega
  have h0 := hall 0 hl
  rw [getD_drop_bool, Nat.add_zero, List.getD_eq_getElem seq true hr] at h0
  rcases h3 with h | h
  · omega
  · rw [List.getD_eq_getElem seq false hr, h0] at h
    exact Bool.noConfusion h

theorem maximalFalseRun_decomp (seq : List Bool) (R u l : ℕ)
    (hpref : ∀ k < R, seq.getD k true = false)
    (h2 : R ≤ seq.length)
    (h3 : R = seq.length ∨ seq.getD R false = true)
    (hR : 0 < R) :
    maximalFalseRun seq u l ↔
      (u = 0 ∧ l = R) ∨ (R ≤ u ∧ maximalFalseRun (seq.drop R) (u - R) l) := by
  constructor
  · intro hM
    obtain ⟨hl, hlen, hall, hleft, hright⟩ := hM
    rcases Nat.eq_zero_or_pos u with hu0 | hu1
    · subst hu0
      left
      refine ⟨rfl, ?_⟩
      rcases lt_trichotomy l R with hlt | heq | hgt
      · exfalso
        have hpre := hpref l hlt
        have hlL : l < seq.length := by omega
        rcases hright with h | h
        · omega
        · rw [Nat.zero_add, List.getD_eq_getElem seq false hlL] at h
          rw [List.getD_eq_getElem seq true hlL] at hpre
          rw [hpre] at h
          exact Bool.noConfusion h
      · exact heq
      · exfalso
        have hRL : R < seq.length := by omega
        have hrun := hall R hgt
        rw [Nat.zero_add, List.getD_eq_getElem seq true hRL] at hrun
        rcases h3 with h | h
        · omega
        · rw [List.getD_eq_getElem seq false hRL, hrun] at h
          exact Bool.noConfusion h
    · right
      have hgtR : R < u := by
        by_contra hcon
        have hu1R : u - 1 < R := by omega
        have hpre := hpref (u - 1) hu1R
        have huL : u - 1 < seq.length := by omega
        rcases hleft with h | h
        · omega
        · rw [List.getD_eq_getElem seq false huL] at h
          rw [List.getD_eq_getElem seq true huL] at hpre
          rw [hpre] at h
          exact Bool.noConfusion h
      refine ⟨le_of_lt hgtR, ?_⟩
      have := (maximalFalseRun_drop seq R (u - R) l h2 (by omega)).mp
      rw [show R + (u - R) = u by omega] at this
      exact this ⟨hl, hlen, hall, hleft, hright⟩
  · rintro (⟨hu0, hlR⟩ | ⟨hRu, hM⟩)
    · subst hu0; subst hlR
      refine ⟨hR, by omega, ?_, Or.inl rfl, by simpa using h3⟩
      intro k hk
      simpa using hpref k hk
    · rcases Nat.eq_or_lt_of_le hRu with heq | hlt
      · exfalso
        rw [← heq, Nat.sub_self] at hM
        exact not_maximalFalseRun_after_prefix seq R l h3 hM
      · have := (maximalFalseRun_drop seq R (u - R) l h2 (by omega)).mpr hM
        rw [show R + (u - R) = u by omega] at this
        exact this

theorem collectGapsFrom_mem_aux :
    ∀ (n : ℕ) (seq : List Bool), seq.length = n → ∀ (i s l : ℕ),
      ((s, l) ∈ collectGapsFrom seq i ↔
        i ≤ s ∧ maximalFalseRun seq (s - i) l) := by
  intro n
  induction n using Nat.strong_induction_on with
  | _ n ih =>
    intro seq hn i s l
    match seq with
    | [] =>
      rw [collectGapsFrom]
      simp only [List.not_mem_nil, false_iff, not_and]
      rintro - ⟨hl, hlen, -, -, -⟩
      simp at hlen
      omega
    | true :: rest =>
      rw [collectGapsFrom]
      have hrec := ih rest.length (by simp [← hn]) rest rfl (i + 1) s l
      rw [hrec, maximalFalseRun_cons_true]
      constructor
      · rintro ⟨h1, h2⟩
        refine ⟨by omega, by omega, ?_⟩
        rw [show s - i - 1 = s - (i + 1) by omega]
        exact h2
      · rintro ⟨h1, h2, h3⟩
        refine ⟨by omega, ?_⟩
        rw [show s - (i + 1) = s - i - 1 by omega]
        exact h3
    | false :: rest =>
      rw [collectGapsFrom]
      have hw : (rest.drop ((rest.takeWhile (fun b => !b)).length)).length
          ≤ rest.length := by
        rw [List.length_drop]; omega
      have hrec := ih (rest.drop ((rest.takeWhile (fun b => !b)).length)).length
        (by simp only [List.length_cons] at hn; omega)
        (rest.drop ((rest.takeWhile (fun b => !b)).length)) rfl
        (i + 1 + (rest.takeWhile (fun b => !b)).length) s l
      rw [List.mem_cons, hrec]
      have hpre := falsePrefix_spec (false :: rest)
      rw [show (false :: rest).takeWhile (fun b => !b)
          = false :: rest.takeWhile (fun b => !b) by simp [List.takeWhile_cons]]
        at hpre
      simp only [List.length_cons] at hpre
      obtain ⟨hp1, hp2, hp3⟩ := hpre
      have hdropeq : (false :: rest).drop ((rest.takeWhile (fun b => !b)).length + 1)
          = rest.drop ((rest.takeWhile (fun b => !b)).length) := by
        rw [List.drop_succ_cons]
      have hdec := maximalFalseRun_decomp (false :: rest)
        ((rest.takeWhile (fun b => !b)).length + 1) (s - i) l hp1 hp2 hp3
        (by omega)
      rw [hdropeq] at hdec
      constructor
      · rintro (heq | ⟨h1, h2⟩)
        · have hs : s = i := (Prod.mk.injEq _ _ _ _).mp heq |>.1
          have hl : l = 1 + (rest.takeWhile (fun b => !b)).length :=
            (Prod.mk.injEq _ _ _ _).mp heq |>.2
          refine ⟨le_of_eq hs.symm, ?_⟩
          rw [hdec]
          left
          constructor
          · omega
          · omega
        · refine ⟨by omega, ?_⟩
          rw [hdec]
          right
          refine ⟨by omega, ?_⟩
          rwa [show s - i - ((rest.takeWhile (fun b => !b)).length + 1)
            = s - (i + 1 + (rest.takeWhile (fun b => !b)).length) by omega]
      · rintro ⟨his, hM⟩
        rw [hdec] at hM
        rcases hM with ⟨h0, hl⟩ | ⟨h1, h2⟩
        · left
          rw [Prod.mk.injEq]
          exact ⟨by omega, by omega⟩
        · right
          refine ⟨by omega, ?_⟩
          rwa [show s - (i + 1 + (rest.takeWhile (fun b => !b)).length)
            = s - i - ((rest.takeWhile (fun b => !b)).length + 1) by omega]

theorem collectGaps_mem (seq : List Bool) (s l : ℕ) :
    (s, l) ∈ collectGaps seq ↔ maximalFalseRun seq s l := by
  unfold collectGaps
  rw [collectGapsFrom_mem_aux seq.length seq rfl 0 s l]
  simp

/-- numpy median on exact rationals: sort; odd count takes the middle value,
even count averages the two middle values (0 on the empty list; the source
never reaches that case because of its own emptiness guard). -/
def npMedian (xs : List ℕ) : ℚ :=
  if xs.length % 2 = 1 then
    ((xs.insertionSort (· ≤ ·)).getD (xs.length / 2) 0 : ℚ)
  else
    (((xs.insertionSort (· ≤ ·)).getD (xs.length / 2 - 1) 0 : ℚ) +
      ((xs.insertionSort (· ≤ ·)).getD (xs.length / 2) 0 : ℚ)) / 2

/-- All gap lengths collected across all clients of the filtered cohort, as
the gap_lengths list of src/app.py. -/
def allGapLengths (seqs : List (List Bool)) : List ℕ :=
  seqs.flatMap (fun seq => (collectGaps seq).map Prod.snd)

/-- The sustained_threshold of src/app.py:
max(1, int(round(median_gap))) with median_gap = np.median(gap_lengths)
when gaps exist and 1.0 otherwise; Python round is half-to-even. -/
def sustainedThreshold (seqs : List (List Bool)) : ℤ :=
  max 1 (roundHalfEven
    (if allGapLengths seqs = [] then 1 else npMedian (allGapLengths seqs)))

/-- Claim C6 — Gap detection.  The gaps collected from a client's boolean
bought_any_analyzed sequence are exactly the maximal runs of consecutive
false values; the spec scenario [true, false, false, false, true] over
K = 5 yields exactly one gap of length 3 starting at t = 1; and the
sustained-gap threshold equals max(1, round(median of all collected gap
lengths across all clients)), with the median of an empty collection
defaulting to 1. -/
theorem C6_gap_detection :
    (∀ (seq : List Bool) (s l : ℕ),
      (s, l) ∈ collectGaps seq ↔ maximalFalseRun seq s l) ∧
    collectGaps [true, false, false, false, true] = [(1, 3)] ∧
    (∀ seqs : List (List Bool),
      sustainedThreshold seqs =
        max 1 (roundHalfEven (if allGapLengths seqs = [] then 1
          else npMedian (allGapLengths seqs)))) := by
  refine ⟨collectGaps_mem, ?_, fun seqs => rfl⟩
  rw [collectGaps, collectGapsFrom, collectGapsFrom]
  norm_num [collectGapsFrom, List.takeWhile]

/-! ## Exit and churn (src/app.py lines 1534-1540) -/

/-- last_purchase_week of src/app.py: per client, the maximum t with
bought_any_analyzable true (none when the client never bought any analyzed
category — a null after the reindex in the source). -/
def lastPurchase (seq : List Bool) : Option ℕ :=
  ((seq.enum.filter (fun p => p.2)).map Prod.fst).max?

/-- exited_mask of src/app.py: last_pw < K − 1 (false on null, as for pandas
float comparisons) or last_pw is null. -/
def exited (K : ℕ) (seq : List Bool) : Bool :=
  match lastPurchase seq with
  | none => true
  | some t => decide (t < K - 1)

/-- pct_exited of src/app.py: 100 * number of exited clients / N. -/
def pctExited (clients : List (List Bool)) (K N : ℕ) : ℚ :=
  100 * ((clients.filter (exited K)).length : ℚ) / (N : ℚ)

/-- avg_last_purchase_week of src/app.py: the mean of last_pw over the
exited clients after dropna, with none when no client is exited (and the
NaN mean of an all-null selection is also modelled as none). -/
def avgLastPurchase (clients : List (List Bool)) (K : ℕ) : Option ℚ :=
  if (clients.filter (exited K)).isEmpty then none
  else
    if ((clients.filter (exited K)).filterMap lastPurchase).isEmpty then none
    else some
      ((((clients.filter (exited K)).filterMap lastPurchase).map
          (fun t => (t : ℚ))).sum /
        (((clients.filter (exited K)).filterMap lastPurchase).length : ℚ))

/-- Claim-side exit notion, from the words of C7: the client never bought
any analyzed category at all, or their last t with bought_any_analyzed true
is strictly before t = K − 1. -/
def specExited (K : ℕ) (seq : List Bool) : Prop :=
  (∀ t < K, seq.getD t false = false) ∨
  (∃ t, t < K - 1 ∧ seq.getD t false = true ∧
    ∀ u < K, t < u → seq.getD u false = false)

instance specExitedDec (K : ℕ) (seq : List Bool) : Decidable (specExited K seq) := by
  unfold specExited
  infer_instance

theorem mem_purchaseIdx (seq : List Bool) (t : ℕ) :
    t ∈ (seq.enum.filter (fun p => p.2)).map Prod.fst ↔ seq[t]? = some true := by
  simp only [List.mem_map, List.mem_filter]
  constructor
  · rintro ⟨⟨a, b⟩, ⟨hmem, hb⟩, rfl⟩
    simp only at hb
    rw [List.mem_enum_iff_getElem?] at hmem
    rw [hb] at hmem
    exact hmem
  · intro h
    refine ⟨(t, true), ⟨?_, rfl⟩, rfl⟩
    rw [List.mem_enum_iff_getElem?]
    exact h

theorem purchase_getElem?_iff (seq : List Bool) (t : ℕ) :
    seq[t]? = some true ↔ t < seq.length ∧ seq.getD t false = true := by
  constructor
  · intro h
    have hlt : t < seq.length := by
      by_contra hc
      rw [List.getElem?_eq_none (by omega)] at h
      exact Option.noConfusion h
    rw [List.getElem?_eq_getElem hlt] at h
    rw [List.getD_eq_getElem seq false hlt]
    exact ⟨hlt, Option.some.inj h⟩
  · rintro ⟨hlt, hd⟩
    rw [List.getD_eq_getElem seq false hlt] at hd
    rw [List.getElem?_eq_getElem hlt, hd]

theorem lastPurchase_none_iff (seq : List Bool) :
    lastPurchase seq = none ↔ ∀ t < seq.length, seq.getD t false = false := by
  unfold lastPurchase
  rw [List.max?_eq_none_iff, List.eq_nil_iff_forall_not_mem]
  constructor
  · intro h t hlt
    have := h t
    rw [mem_purchaseIdx, purchase_getElem?_iff] at this
    cases hval : seq.getD t false
    · rfl
    · exact absurd ⟨hlt, hval⟩ this
  · intro h t
    rw [mem_purchaseIdx, purchase_getElem?_iff]
    rintro ⟨hlt, htrue⟩
    rw [h t hlt] at htrue
    exact Bool.noConfusion htrue

theorem lastPurchase_some_iff (seq : List Bool) (t : ℕ) :
    lastPurchase seq = some t ↔
      (t < seq.length ∧ seq.getD t false = true ∧
        ∀ u < seq.length, t < u → seq.getD u false = false) := by
  unfold lastPurchase
  rw [List.max?_eq_some_iff']
  constructor
  · rintro ⟨hmem, hmax⟩
    rw [mem_purchaseIdx, purchase_getElem?_iff] at hmem
    refine ⟨hmem.1, hmem.2, ?_⟩
    intro u hu htu
    by_contra hne
    have htrue : seq.getD u false = true := by
      cases hval : seq.getD u false
      · exact absurd hval hne
      · rfl
    have humem : u ∈ (seq.enum.filter (fun p => p.2)).map Prod.fst := by
      rw [mem_purchaseIdx, purchase_getElem?_iff]
      exact ⟨hu, htrue⟩
    have := hmax u humem
    omega
  · rintro ⟨hlt, htrue, hmax⟩
    constructor
    · rw [mem_purchaseIdx, purchase_getElem?_iff]
      exact ⟨hlt, htrue⟩
    · intro b hb
      rw [mem_purchaseIdx, purchase_getElem?_iff] at hb
      by_contra hc
      have := hmax b hb.1 (by omega)
      rw [this] at hb
      exact Bool.noConfusion hb.2

theorem exited_iff_spec (K : ℕ) (seq : List Bool) (hlen : seq.length = K) :
    exited K seq = true ↔ specExited K seq := by
  unfold exited specExited
  rcases hlp : lastPurchase seq with _ | t
  · simp only [true_iff]
    left
    rw [lastPurchase_none_iff, hlen] at hlp
    exact hlp
  · rw [lastPurchase_some_iff, hlen] at hlp
    obtain ⟨htK, htrue, hafter⟩ := hlp
    simp only [decide_eq_true_eq]
    constructor
    · intro hlt
      right
      exact ⟨t, hlt, htrue, hafter⟩
    · rintro (hall | ⟨u, huK, hutrue, huafter⟩)
      · exact absurd (hall t htK) (by rw [htrue]; exact Bool.noConfusion)
      · have hut : u = t := by
          by_contra hne
          rcases lt_or_gt_of_ne hne with hlt | hgt
          · have := huafter t htK hlt
            rw [this] at htrue
            exact Bool.noConfusion htrue
          · have := hafter u (by omega) hgt
            rw [this] at hutrue
            exact Bool.noConfusion hutrue
        omega

/-- Claim C7 — Exit/churn.  A client counts as exited exactly when their
last bought_any_analyzed period is strictly before t = K − 1 or they never
bought any analyzed category; the exit percentage is 100 times the number
of exited clients over N; and the mean last-purchase t is the mean of the
last bought_any_analyzed t over exactly the exited clients (those who have
such a t; none when there is none). -/
theorem C7_exit_churn (clients : List (List Bool)) (K N : ℕ)
    (hlen : ∀ seq ∈ clients, seq.length = K) :
    (∀ seq ∈ clients, exited K seq = true ↔ specExited K seq) ∧
    pctExited clients K N =
      100 * ((clients.filter (fun seq => decide (specExited K seq))).length : ℚ)
        / (N : ℚ) ∧
    avgLastPurchase clients K =
      (if ((clients.filter (fun seq => decide (specExited K seq))).filterMap
            lastPurchase) = [] then none
       else some
        (((((clients.filter (fun seq => decide (specExited K seq))).filterMap
              lastPurchase).map (fun t => (t : ℚ))).sum) /
          ((((clients.filter (fun seq => decide (specExited K seq))).filterMap
              lastPurchase).length : ℚ)))) := by
  have hfe : clients.filter (exited K) =
      clients.filter (fun seq => decide (specExited K seq)) := by
    refine List.filter_congr (fun seq hs => ?_)
    rw [Bool.eq_iff_iff]
    simp only [decide_eq_true_eq]
    exact exited_iff_spec K seq (hlen seq hs)
  refine ⟨fun seq hs => exited_iff_spec K seq (hlen seq hs), ?_, ?_⟩
  · unfold pctExited
    rw [hfe]
  · unfold avgLastPurchase
    rw [hfe]
    by_cases h1 : clients.filter (fun seq => decide (specExited K seq)) = []
    · rw [if_pos (by simp [h1]), h1]
      simp
    · rw [if_neg (by simpa [List.isEmpty_iff] using h1)]
      by_cases h2 : (clients.filter
          (fun seq => decide (specExited K seq))).filterMap lastPurchase = []
      · rw [if_pos (by simpa [List.isEmpty_iff] using h2), if_pos h2]
      · rw [if_neg (by simpa [List.isEmpty_iff] using h2), if_neg h2]

/-- Witness for C7: two clients over K = 2, one buying only at t = 0 (exited)
and one buying at t = 1 (not exited). -/
theorem C7_exit_churn_witness :
    exited 2 [true, false] = true ↔ specExited 2 [true, false] :=
  (C7_exit_churn [[true, false], [false, true]] 2 2 (by decide)).1
    [true, false] (List.Mem.head _)

/-! ## Period timeline builder (src/app.py lines 223-244) -/

/-- Python str.strip(): remove leading and trailing whitespace (modelled
with Char.isWhitespace on the character list of the string). -/
def pyStrip (s : String) : String :=
  ⟨((s.data.dropWhile Char.isWhitespace).reverse.dropWhile
      Char.isWhitespace).reverse⟩

/-- Trim both components of a (period_main, period_sub) pair, as the
astype(str).str.strip() normalization of merge_and_prepare does. -/
def trimPair (p : String × String) : String × String :=
  (pyStrip p.1, pyStrip p.2)

/-- Lexicographic comparison of (period_main, period_sub) string pairs:
the order pandas sort_values([period_main, period_sub]) realizes on
distinct pairs (string comparison, code-point order). -/
def pairLe (p q : String × String) : Prop :=
  p.1 < q.1 ∨ (p.1 = q.1 ∧ p.2 ≤ q.2)

instance : DecidableRel pairLe := fun p q => by
  unfold pairLe
  infer_instance

instance : IsTotal (String × String) pairLe := by
  constructor
  intro a b
  rcases lt_trichotomy a.1 b.1 with h | h | h
  · exact Or.inl (Or.inl h)
  · rcases le_total a.2 b.2 with h2 | h2
    · exact Or.inl (Or.inr ⟨h, h2⟩)
    · exact Or.inr (Or.inr ⟨h.symm, h2⟩)
  · exact Or.inr (Or.inl h)

instance : IsTrans (String × String) pairLe := by
  constructor
  rintro a b c (h1 | ⟨h1, h1b⟩) (h2 | ⟨h2, h2b⟩)
  · exact Or.inl (lt_trans h1 h2)
  · exact Or.inl (h2 ▸ h1)
  · exact Or.inl (h1 ▸ h2)
  · exact Or.inr ⟨h1.trans h2, le_trans h1b h2b⟩

/-- The period_order table of merge_and_prepare in src/app.py: trim both
period columns of the concatenated rows, drop duplicate pairs, sort by
(period_main, period_sub) as strings, and let period_rank be the position
0..N−1 in that sorted order. -/
def buildTimeline (rows : List (String × String)) :
    List ((String × String) × ℕ) :=
  (((rows.map trimPair).dedup).insertionSort pairLe).enum.map
    (fun q => (q.2, q.1))

/-- The exact-match left merge of src/app.py line 236: a row's period rank
is the rank stored in the timeline for the row's trimmed pair. -/
def rankOf (timeline : List ((String × String) × ℕ)) (p : String × String) :
    Option ℕ :=
  (timeline.find? (fun e => e.1 = p)).map Prod.snd

theorem key_unique {α β : Type} {l : List (α × β)}
    (hnd : (l.map Prod.fst).Nodup) {a : α} {b1 b2 : β}
    (h1 : (a, b1) ∈ l) (h2 : (a, b2) ∈ l) : b1 = b2 := by
  induction l with
  | nil => simp at h1
  | cons x xs ih =>
    simp only [List.map_cons, List.nodup_cons] at hnd
    rcases List.mem_cons.mp h1 with he1 | ht1 <;>
      rcases List.mem_cons.mp h2 with he2 | ht2
    · rw [← he2] at he1
      exact congrArg Prod.snd he1
    · exfalso
      have ha : a ∈ xs.map Prod.fst := List.mem_map.mpr ⟨(a, b2), ht2, rfl⟩
      apply hnd.1
      rw [← he1]
      exact ha
    · exfalso
      have ha : a ∈ xs.map Prod.fst := List.mem_map.mpr ⟨(a, b1), ht1, rfl⟩
      apply hnd.1
      rw [← he2]
      exact ha
    · exact ih hnd.2 ht1 ht2

theorem buildTimeline_mem (rows : List (String × String))
    (p : String × String) (r : ℕ) :
    (p, r) ∈ buildTimeline rows ↔
      (((rows.map trimPair).dedup).insertionSort pairLe)[r]? = some p := by
  unfold buildTimeline
  rw [List.mem_map]
  constructor
  · rintro ⟨⟨r0, p0⟩, hmem, heq⟩
    simp only [Prod.mk.injEq] at heq
    obtain ⟨hp, hr⟩ := heq
    subst hp
    subst hr
    rwa [List.mem_enum_iff_getElem?] at hmem
  · intro h
    exact ⟨(r, p), (List.mem_enum_iff_getElem?).mpr h, rfl⟩

theorem buildTimeline_map_fst (rows : List (String × String)) :
    (buildTimeline rows).map Prod.fst =
      ((rows.map trimPair).dedup).insertionSort pairLe := by
  unfold buildTimeline
  rw [List.map_map]
  exact List.enum_map_snd _

theorem buildTimeline_keys_nodup (rows : List (String × String)) :
    ((buildTimeline rows).map Prod.fst).Nodup := by
  rw [buildTimeline_map_fst]
  exact (List.perm_insertionSort pairLe _).nodup_iff.mpr (List.nodup_dedup _)

/-- Claim C8 — Period timeline.  The rank table built by merge_and_prepare
holds each distinct trimmed (period_main, period_sub) pair of the
concatenated input exactly once; the attached ranks are exactly the
positions 0..N−1; the pairs are in strictly increasing lexicographic
string order; a pair maps to rank r exactly when it sits at position r of
the sorted order; and every transaction row is annotated (by exact string
match of its trimmed pair) with the rank of its pair. -/
theorem C8_period_timeline (rows : List (String × String)) :
    ((buildTimeline rows).map Prod.fst).Nodup ∧
    (∀ p, (∃ r, (p, r) ∈ buildTimeline rows) ↔ p ∈ rows.map trimPair) ∧
    ((buildTimeline rows).map Prod.snd =
      List.range (buildTimeline rows).length) ∧
    ((buildTimeline rows).map Prod.fst).Pairwise
      (fun p q => pairLe p q ∧ p ≠ q) ∧
    (∀ p r, rankOf (buildTimeline rows) p = some r ↔
      (p, r) ∈ buildTimeline rows) ∧
    (∀ row ∈ rows, ∃ r,
      rankOf (buildTimeline rows) (trimPair row) = some r ∧
      ((buildTimeline rows).map Prod.fst)[r]? = some (trimPair row)) := by
  have hfind : ∀ p r, rankOf (buildTimeline rows) p = some r ↔
      (p, r) ∈ buildTimeline rows := by
    intro p r
    unfold rankOf
    constructor
    · intro h
      rw [Option.map_eq_some'] at h
      obtain ⟨e, hfe, hr⟩ := h
      have hpred := List.find?_some hfe
      have hmem := List.mem_of_find?_eq_some hfe
      simp only [decide_eq_true_eq] at hpred
      have : e = (p, r) := by
        rw [← hpred, ← hr]
      rwa [this] at hmem
    · intro h
      rcases hf : (buildTimeline rows).find? (fun e => e.1 = p) with _ | e
      · exfalso
        rw [List.find?_eq_none] at hf
        exact absurd (by simp : decide ((p, r).1 = p) = true) (by simpa using hf (p, r) h)
      · have hpred := List.find?_some hf
        have hmem := List.mem_of_find?_eq_some hf
        simp only [decide_eq_true_eq] at hpred
        have hmem2 : (p, e.2) ∈ buildTimeline rows := by
          have : e = (p, e.2) := by rw [← hpred]
          rwa [this] at hmem
        have := key_unique (buildTimeline_keys_nodup rows) hmem2 h
        rw [hf, Option.map_some']
        exact congrArg some this
  refine ⟨buildTimeline_keys_nodup rows, ?_, ?_, ?_, hfind, ?_⟩
  · intro p
    constructor
    · rintro ⟨r, hr⟩
      rw [buildTimeline_mem] at hr
      have hp : p ∈ ((rows.map trimPair).dedup).insertionSort pairLe := by
        rw [List.mem_iff_getElem?]
        exact ⟨r, hr⟩
      rw [(List.perm_insertionSort pairLe _).mem_iff, List.mem_dedup] at hp
      exact hp
    · intro hp
      rw [← List.mem_dedup, ← (List.perm_insertionSort pairLe _).mem_iff,
        List.mem_iff_getElem?] at hp
      obtain ⟨r, hr⟩ := hp
      exact ⟨r, (buildTimeline_mem rows p r).mpr hr⟩
  · unfold buildTimeline
    rw [List.map_map, List.length_map, List.enum_length]
    exact List.enum_map_fst _
  · rw [buildTimeline_map_fst]
    exact List.Pairwise.and
      (List.sorted_insertionSort pairLe _)
      ((List.perm_insertionSort pairLe _).nodup_iff.mpr (List.nodup_dedup _))
  · intro row hrow
    have hp : trimPair row ∈ rows.map trimPair := List.mem_map_of_mem _ hrow
    rw [← List.mem_dedup, ← (List.perm_insertionSort pairLe _).mem_iff,
      List.mem_iff_getElem?] at hp
    obtain ⟨r, hr⟩ := hp
    refine ⟨r, (hfind _ r).mpr ((buildTimeline_mem rows _ r).mpr hr), ?_⟩
    rw [buildTimeline_map_fst]
    exact hr

/-! ## Cluster summary (src/app.py lines 929-1009) -/

/-- One row of the cluster summary table of src/app.py (the Итого row reuses
the same shape; its active_periods_sum, absent in the source frame, is
fixed at 0 here and never read). -/
structure SummaryRow where
  cluster : String
  clients : ℕ
  pct : ℚ
  totalVolume : ℤ
  activePeriodsSum : ℕ
  avgRegularity : ℚ
  avgClientPerPeriod : ℚ
  pctVolume : ℚ
deriving DecidableEq, Repr

/-- The all-zero row appended by the two fill loops of src/app.py for
clusters without customers. -/
def zeroRow (nm : String) : SummaryRow :=
  { cluster := nm, clients := 0, pct := 0, totalVolume := 0,
    activePeriodsSum := 0, avgRegularity := 0, avgClientPerPeriod := 0,
    pctVolume := 0 }

/-- The per_client.groupby("cluster").agg(...) of src/app.py, including the
subsequent avg_client_per_period column (total_volume over
active_periods_sum with 0 replaced by 1, rounded to 2 places); pandas sorts
the group keys.  pct_volume is attached later, in buildSummary. -/
def groupRows (labeled : List (PerClientRow × String)) : List SummaryRow :=
  ((labeled.map Prod.snd).dedup.insertionSort (· ≤ ·)).map (fun nm =>
    let grp := labeled.filter (fun c => c.2 = nm)
    { cluster := nm
      clients := grp.length
      pct := if labeled.length = 0 then 0
             else 100 * (grp.length : ℚ) / (labeled.length : ℚ)
      totalVolume := (grp.map (fun c => c.1.volume)).sum
      activePeriodsSum := (grp.map (fun c => c.1.activePeriods)).sum
      avgRegularity := if grp.length = 0 then 0
                       else ((grp.map (fun c => c.1.regularity)).sum) /
                         (grp.length : ℚ)
      avgClientPerPeriod := round2 (((grp.map (fun c => c.1.volume)).sum : ℚ) /
        (if (grp.map (fun c => c.1.activePeriods)).sum = 0 then 1
         else ((grp.map (fun c => c.1.activePeriods)).sum : ℚ)))
      pctVolume := 0 })

/-- The two fill loops of src/app.py: append a zero row for every cluster of
CLUSTER_8_ORDER missing from the summary, then for "Не покупали" if it is
missing. -/
def fillMissing (rows : List SummaryRow) : List SummaryRow :=
  let with8 := CLUSTER_8_ORDER.foldl
    (fun acc nm =>
      if nm ∈ acc.map SummaryRow.cluster then acc else acc ++ [zeroRow nm])
    rows
  if "Не покупали" ∈ with8.map SummaryRow.cluster then with8
  else with8 ++ [zeroRow "Не покупали"]

/-- The Итого row of src/app.py lines 994-1003: total client count, pct
fixed at 100, overall volume, mean regularity rounded to 3 places and
overall volume per active period rounded to 2 places (0 when there is no
active period). -/
def totalRow (labeled : List (PerClientRow × String)) : SummaryRow :=
  { cluster := "Итого"
    clients := labeled.length
    pct := 100
    totalVolume := (labeled.map (fun c => c.1.volume)).sum
    activePeriodsSum := 0
    avgRegularity := round3 (if labeled.length = 0 then 0
      else ((labeled.map (fun c => c.1.regularity)).sum) /
        (labeled.length : ℚ))
    avgClientPerPeriod := round2
      (if (labeled.map (fun c => c.1.activePeriods)).sum = 0 then 0
       else (((labeled.map (fun c => c.1.volume)).sum : ℚ) /
         (((labeled.map (fun c => c.1.activePeriods)).sum : ℚ))))
    pctVolume := 0 }

/-- The complete summary of src/app.py lines 929-1009: group, fill missing
clusters with zero rows, sort by total volume descending, prepend the Итого
row, and attach the pct_volume column (share of the overall volume, with a
unit denominator when the overall volume is zero). -/
def buildSummary (labeled : List (PerClientRow × String)) : List SummaryRow :=
  ((totalRow labeled ::
    (fillMissing (groupRows labeled)).insertionSort
      (fun a b => b.totalVolume ≤ a.totalVolume)).map
    (fun r =>
      { r with pctVolume := round1 (100 * (r.totalVolume : ℚ) /
          (if (labeled.map (fun c => c.1.volume)).sum = 0 then 1
           else (((labeled.map (fun c => c.1.volume)).sum : ℚ)))) }))

theorem foldl_fill_eq (toAdd : List String) (rows : List SummaryRow)
    (hnd : toAdd.Nodup) :
    toAdd.foldl
      (fun acc nm =>
        if nm ∈ acc.map SummaryRow.cluster then acc else acc ++ [zeroRow nm])
      rows =
    rows ++ (toAdd.filter
      (fun nm => decide (¬ nm ∈ rows.map SummaryRow.cluster))).map zeroRow := by
  induction toAdd generalizing rows with
  | nil => simp
  | cons nm rest ih =>
    rw [List.nodup_cons] at hnd
    rw [List.foldl_cons]
    by_cases hmem : nm ∈ rows.map SummaryRow.cluster
    · rw [if_pos hmem, ih rows hnd.2]
      congr 1
      rw [List.filter_cons]
      rw [if_neg (by simp [hmem])]
    · rw [if_neg hmem, ih (rows ++ [zeroRow nm]) hnd.2]
      rw [List.filter_cons, if_pos (by simp [hmem])]
      simp only [List.map_cons, List.map_append]
      rw [List.append_assoc]
      simp only [List.singleton_append]
      congr 2
      refine congrArg (List.map zeroRow) ?_
      refine List.filter_congr (fun x hx => ?_)
      have hxnm : x ≠ nm := fun h => hnd.1 (h ▸ hx)
      simp only [List.map_append, decide_eq_decide]
      constructor
      · intro hnx hcon
        exact hnx (List.mem_append_left _ hcon)
      · intro hnx hcon
        rcases List.mem_append.mp hcon with h | h
        · exact hnx h
        · simp only [List.map_cons, List.map_nil, zeroRow] at h
          rcases List.mem_singleton.mp h with h2
          exact hxnm h2

theorem fillMissing_eq (rows : List SummaryRow) :
    fillMissing rows = rows ++
      (allClusterNames.filter
        (fun nm => decide (¬ nm ∈ rows.map SummaryRow.cluster))).map zeroRow := by
  simp only [fillMissing]
  rw [foldl_fill_eq CLUSTER_8_ORDER rows (by decide)]
  have hne : ("Не покупали" ∈ (rows ++ (CLUSTER_8_ORDER.filter
        (fun nm => decide (¬ nm ∈ rows.map SummaryRow.cluster))).map
          zeroRow).map SummaryRow.cluster) ↔
      "Не покупали" ∈ rows.map SummaryRow.cluster := by
    rw [List.map_append, List.mem_append]
    constructor
    · rintro (h | h)
      · exact h
      · exfalso
        rw [List.map_map] at h
        simp only [List.mem_map, List.mem_filter] at h
        obtain ⟨nm, ⟨hnm8, -⟩, heq⟩ := h
        have hnm : nm = "Не покупали" := heq
        subst hnm
        revert hnm8
        decide
    · intro h
      exact Or.inl h
  unfold allClusterNames
  by_cases hmem : "Не покупали" ∈ rows.map SummaryRow.cluster
  · rw [if_pos (hne.mpr hmem), List.filter_append, List.map_append]
    have hnil : (["Не покупали"].filter
        (fun nm => decide (¬ nm ∈ rows.map SummaryRow.cluster))) = [] := by
      simp only [List.filter_eq_nil_iff, List.mem_singleton, decide_eq_true_eq]
      rintro nm rfl
      simpa using hmem
    rw [hnil]
    simp
  · rw [if_neg (fun hcon => hmem (hne.mp hcon)), List.filter_append,
      List.map_append]
    have hone : (["Не покупали"].filter
        (fun nm => decide (¬ nm ∈ rows.map SummaryRow.cluster)))
        = ["Не покупали"] := by
      rw [List.filter_eq_self]
      intro nm hnm
      rw [List.mem_singleton] at hnm
      subst hnm
      simpa using hmem
    rw [hone]
    simp

theorem groupRows_map_cluster (labeled : List (PerClientRow × String)) :
    (groupRows labeled).map SummaryRow.cluster =
      (labeled.map Prod.snd).dedup.insertionSort (· ≤ ·) := by
  unfold groupRows
  rw [List.map_map]
  exact List.map_id _

theorem nodup_subset_filter_perm (u s : List String) (hu : u.Nodup)
    (hs : s.Nodup) (hsub : ∀ x ∈ u, x ∈ s) :
    (u ++ s.filter (fun nm => decide (¬ nm ∈ u))).Perm s := by
  rw [List.perm_iff_count]
  intro a
  rw [List.count_append]
  by_cases hau : a ∈ u
  · have h1 : u.count a = 1 := List.count_eq_one_of_mem hu hau
    have h2 : (s.filter (fun nm => decide (¬ nm ∈ u))).count a = 0 := by
      rw [List.count_eq_zero]
      intro hcon
      have hm := List.mem_filter.mp hcon
      simp only [decide_eq_true_eq] at hm
      exact hm.2 hau
    have h3 : s.count a = 1 := List.count_eq_one_of_mem hs (hsub a hau)
    omega
  · have h1 : u.count a = 0 := List.count_eq_zero.mpr hau
    have h2 : (s.filter (fun nm => decide (¬ nm ∈ u))).count a = s.count a := by
      rw [List.count_filter]
      simp [hau]
    omega

theorem buildSummary_names (labeled : List (PerClientRow × String)) :
    (buildSummary labeled).map SummaryRow.cluster =
      "Итого" :: ((fillMissing (groupRows labeled)).insertionSort
        (fun a b => b.totalVolume ≤ a.totalVolume)).map SummaryRow.cluster := by
  unfold buildSummary
  rw [List.map_map]
  rfl

theorem buildSummary_names_perm (labeled : List (PerClientRow × String))
    (hcl : ∀ p ∈ labeled, p.2 ∈ allClusterNames) :
    ((buildSummary labeled).map SummaryRow.cluster).Perm
      ("Итого" :: allClusterNames) := by
  rw [buildSummary_names]
  refine List.Perm.cons _ ?_
  have hperm1 : (((fillMissing (groupRows labeled)).insertionSort
      (fun a b => b.totalVolume ≤ a.totalVolume)).map SummaryRow.cluster).Perm
      ((fillMissing (groupRows labeled)).map SummaryRow.cluster) :=
    (List.perm_insertionSort _ _).map _
  refine hperm1.trans ?_
  rw [fillMissing_eq, List.map_append, List.map_map]
  simp only [groupRows_map_cluster]
  have hz : (SummaryRow.cluster ∘ zeroRow) = id := rfl
  rw [hz, List.map_id]
  have hpres : ∀ x ∈ (labeled.map Prod.snd).dedup.insertionSort (· ≤ ·),
      x ∈ allClusterNames := by
    intro x hx
    rw [(List.perm_insertionSort _ _).mem_iff, List.mem_dedup,
      List.mem_map] at hx
    obtain ⟨p, hp, hpx⟩ := hx
    exact hpx ▸ hcl p hp
  have hprednd : ((labeled.map Prod.snd).dedup.insertionSort (· ≤ ·)).Nodup :=
    (List.perm_insertionSort _ _).nodup_iff.mpr (List.nodup_dedup _)
  exact nodup_subset_filter_perm
    ((labeled.map Prod.snd).dedup.insertionSort (· ≤ ·)) allClusterNames
    hprednd (by decide) hpres

theorem buildSummary_zeroRow (labeled : List (PerClientRow × String))
    (nm : String) (hnm : nm ∈ allClusterNames)
    (hno : ∀ p ∈ labeled, p.2 ≠ nm) :
    zeroRow nm ∈ buildSummary labeled := by
  have hnp : ¬ nm ∈ (groupRows labeled).map SummaryRow.cluster := by
    rw [groupRows_map_cluster, (List.perm_insertionSort _ _).mem_iff,
      List.mem_dedup, List.mem_map]
    rintro ⟨p, hp, hpx⟩
    exact hno p hp hpx
  have hfill : zeroRow nm ∈ fillMissing (groupRows labeled) := by
    rw [fillMissing_eq]
    refine List.mem_append_right _ ?_
    refine List.mem_map.mpr ⟨nm, ?_, rfl⟩
    rw [List.mem_filter]
    exact ⟨hnm, by simpa using hnp⟩
  have hsort : zeroRow nm ∈ (fillMissing (groupRows labeled)).insertionSort
      (fun a b => b.totalVolume ≤ a.totalVolume) :=
    ((List.perm_insertionSort _ _).mem_iff).mpr hfill
  unfold buildSummary
  refine List.mem_map.mpr ⟨zeroRow nm, List.mem_cons_of_mem _ hsort, ?_⟩
  simp only [zeroRow, SummaryRow.mk.injEq, true_and, and_true]
  norm_num [round1, roundHalfEven]

theorem dedup_replicate_succ (n : ℕ) (a : String) :
    (List.replicate (n + 1) a).dedup = [a] := by
  induction n with
  | zero => simp
  | succ n ih =>
    rw [List.replicate_succ, List.dedup_cons_of_mem
      (by rw [List.mem_replicate]; exact ⟨by omega, rfl⟩)]
    exact ih

theorem assignClusters_snd_nopurchase (customers0 : List PerClientRow)
    (hz : ∀ c ∈ customers0, c.volume = 0) :
    ∀ p ∈ assignClusters customers0, p.2 = "Не покупали" := by
  intro p hp
  unfold assignClusters at hp
  simp only [List.mem_map] at hp
  obtain ⟨c, hc, rfl⟩ := hp
  simp [hz c hc]

theorem degenerate_nopurchase_row (customers0 : List PerClientRow)
    (hz : ∀ c ∈ customers0, c.volume = 0) (hn : customers0 ≠ []) :
    ∃ row ∈ buildSummary (assignClusters customers0),
      row.cluster = "Не покупали" ∧ row.clients = customers0.length ∧
      row.pct = 100 := by
  have hsnd := assignClusters_snd_nopurchase customers0 hz
  have hlen0 : (assignClusters customers0).length = customers0.length := by
    unfold assignClusters
    rw [List.length_map]
  have hlabels : (assignClusters customers0).map Prod.snd
      = List.replicate customers0.length "Не покупали" := by
    rw [List.eq_replicate_iff]
    refine ⟨by rw [List.length_map, hlen0], ?_⟩
    intro b hb
    rw [List.mem_map] at hb
    obtain ⟨p, hp, hpb⟩ := hb
    rw [← hpb]
    exact hsnd p hp
  obtain ⟨m, hm⟩ : ∃ m, customers0.length = m + 1 := by
    rcases customers0 with _ | ⟨c, cs⟩
    · exact absurd rfl hn
    · exact ⟨cs.length, rfl⟩
  have hpres : ((assignClusters customers0).map Prod.snd).dedup.insertionSort
      (· ≤ ·) = ["Не покупали"] := by
    rw [hlabels, hm, dedup_replicate_succ]
    rfl
  have hgrp : (assignClusters customers0).filter
      (fun c => c.2 = "Не покупали") = assignClusters customers0 :=
    List.filter_eq_self.mpr (fun p hp => by simp [hsnd p hp])
  have hgr : ∃ row ∈ groupRows (assignClusters customers0),
      row.cluster = "Не покупали" ∧ row.clients = customers0.length ∧
      row.pct = 100 := by
    unfold groupRows
    rw [hpres]
    simp only [List.map_cons, List.map_nil]
    refine ⟨_, List.mem_singleton_self _, rfl, ?_, ?_⟩
    · show ((assignClusters customers0).filter
        (fun c => c.2 = "Не покупали")).length = customers0.length
      rw [hgrp, hlen0]
    · show (if (assignClusters customers0).length = 0 then (0 : ℚ)
        else 100 * (((assignClusters customers0).filter
          (fun c => c.2 = "Не покупали")).length : ℚ) /
          ((assignClusters customers0).length : ℚ)) = 100
      rw [hgrp, if_neg (by omega : ¬ (assignClusters customers0).length = 0),
        mul_div_assoc, div_self
          (Nat.cast_ne_zero.mpr (by omega : (assignClusters customers0).length ≠ 0)),
        mul_one]
  obtain ⟨row, hrowmem, hc1, hc2, hc3⟩ := hgr
  have hfill : row ∈ fillMissing (groupRows (assignClusters customers0)) := by
    rw [fillMissing_eq]
    exact List.mem_append_left _ hrowmem
  have hsort : row ∈
      (fillMissing (groupRows (assignClusters customers0))).insertionSort
        (fun a b => b.totalVolume ≤ a.totalVolume) :=
    ((List.perm_insertionSort _ _).mem_iff).mpr hfill
  refine ⟨_, List.mem_map.mpr ⟨row, List.mem_cons_of_mem _ hsort, rfl⟩,
    hc1, hc2, hc3⟩

theorem assignClusters_snd_mem (customers : List PerClientRow) :
    ∀ p ∈ assignClusters customers, p.2 ∈ allClusterNames := by
  intro p hp
  unfold assignClusters at hp
  simp only [List.mem_map] at hp
  obtain ⟨c, hc, rfl⟩ := hp
  by_cases hpos : 0 < c.volume
  · simp only [hpos, if_pos, allClusterNames]
    exact List.mem_append_left _ (assignCluster_mem _ _ _ _)
  · simp [hpos, allClusterNames]

/-- The per_client dataframe of the cluster block of src/app.py lines
876-890 as handed to the classifier: the fallible per-roster aggregate
(see perClientMetrics; none is the KeyError at line 887) with the
regularity ratio attached — active_periods over available_periods, where a
roster client missing from the cohort-rank map gets the fillna(k_int)
default K as its available_periods. -/
def perClientTable (doc1 doc2 : List Txn) (selected cohortSet : List String)
    (r0 : String → Option ℕ) (maxRank K : ℕ) : Option (List PerClientRow) :=
  (perClientMetrics (cohortRoster cohortSet)
      (windowTxns doc1 doc2 selected cohortSet r0 K)).map
    (fun metrics => metrics.map (fun m =>
      { client := m.1
        volume := m.2.1
        activePeriods := m.2.2
        regularity := regularityClassifier m.2.2
          (match r0 m.1 with
           | some a => availablePeriods maxRank a K
           | none => K) }))

/-- The cluster tab end to end: per-client table, cluster assignment,
summary.  none is the KeyError at src/app.py line 887: no summary table is
produced at all on such inputs. -/
def clusterBlock (doc1 doc2 : List Txn) (selected cohortSet : List String)
    (r0 : String → Option ℕ) (maxRank K : ℕ) : Option (List SummaryRow) :=
  (perClientTable doc1 doc2 selected cohortSet r0 maxRank K).map
    (fun rows => buildSummary (assignClusters rows))

/-- Claim C9 — Cluster summary completeness (code bug).  Whenever the
cluster block produces a summary at all, that summary is complete: its
cluster-name column is a permutation of Итого plus the 8 behavioral
clusters plus "Не покупали" (hence exactly ten rows), and a cluster with no
customers appears as the all-zero row; for a nonempty cohort in which no
client has positive volume, the "Не покупали" row shows the whole cohort
(count n, 100%) while all 8 behavioral clusters show zero.  But the claim's
"for every input" fails: when no transaction qualifies for the window, the
source raises KeyError("volume") at src/app.py line 887 before any summary
is built and no cluster table is produced — the fifth conjunct states that
failure in general and the last conjunct evaluates it at a concrete
nonempty cohort. -/
theorem C9_cluster_summary_completeness
    (doc1 doc2 : List Txn) (selected cohortSet : List String)
    (r0 : String → Option ℕ) (maxRank K : ℕ)
    (customers0 : List PerClientRow)
    (hz : ∀ c ∈ customers0, c.volume = 0)
    (hn : customers0 ≠ []) :
    (∀ rows, perClientTable doc1 doc2 selected cohortSet r0 maxRank K =
        some rows →
      clusterBlock doc1 doc2 selected cohortSet r0 maxRank K =
        some (buildSummary (assignClusters rows)) ∧
      ((buildSummary (assignClusters rows)).map SummaryRow.cluster).Perm
        ("Итого" :: allClusterNames) ∧
      (buildSummary (assignClusters rows)).length = 10 ∧
      (∀ nm ∈ allClusterNames, (∀ p ∈ assignClusters rows, p.2 ≠ nm) →
        zeroRow nm ∈ buildSummary (assignClusters rows))) ∧
    (∃ row ∈ buildSummary (assignClusters customers0),
      row.cluster = "Не покупали" ∧ row.clients = customers0.length ∧
      row.pct = 100) ∧
    (∀ nm ∈ CLUSTER_8_ORDER,
      zeroRow nm ∈ buildSummary (assignClusters customers0)) ∧
    ((∀ t ∈ doc1 ++ doc2, ¬ specQualifies cohortSet selected r0 K t) →
      clusterBlock doc1 doc2 selected cohortSet r0 maxRank K = none) ∧
    clusterBlock [⟨"a", "X", some 5, 1⟩] [] ["X"] ["a", "b"]
      (fun s => if s = "a" then some 0 else none) 5 2 = none := by
  refine ⟨?_, degenerate_nopurchase_row customers0 hz hn, ?_, ?_, by decide⟩
  · intro rows hrows
    have hsum : clusterBlock doc1 doc2 selected cohortSet r0 maxRank K =
        some (buildSummary (assignClusters rows)) := by
      unfold clusterBlock
      rw [hrows]
      rfl
    refine ⟨hsum, buildSummary_names_perm _ (assignClusters_snd_mem rows),
      ?_, ?_⟩
    · have hlen :=
        (buildSummary_names_perm _ (assignClusters_snd_mem rows)).length_eq
      rw [List.length_map] at hlen
      rw [hlen]
      rfl
    · intro nm hnm hno
      exact buildSummary_zeroRow _ nm hnm hno
  · intro nm hnm
    refine buildSummary_zeroRow _ nm
      (List.mem_append_left _ hnm) ?_
    intro p hp
    rw [assignClusters_snd_nopurchase customers0 hz p hp]
    revert hnm
    revert nm
    decide
  · intro hq
    have hnil : windowTxns doc1 doc2 selected cohortSet r0 K = [] := by
      rw [windowTxns_eq_filter]
      refine List.filter_eq_nil_iff.mpr (fun t ht => ?_)
      intro hcon
      exact hq t ht ((specQualifiesB_eq_true_iff _ _ _ _ t).mp hcon)
    unfold clusterBlock perClientTable
    rw [hnil]
    rfl

/-- Witness for C9: a ten-client zero-volume cohort exhibits the degenerate
"Не покупали" = 10 at 100% row. -/
theorem C9_cluster_summary_completeness_witness :
    ∃ row ∈ buildSummary (assignClusters
        [⟨"c1", 0, 0, 0⟩, ⟨"c2", 0, 0, 0⟩, ⟨"c3", 0, 0, 0⟩, ⟨"c4", 0, 0, 0⟩,
         ⟨"c5", 0, 0, 0⟩, ⟨"c6", 0, 0, 0⟩, ⟨"c7", 0, 0, 0⟩, ⟨"c8", 0, 0, 0⟩,
         ⟨"c9", 0, 0, 0⟩, ⟨"c10", 0, 0, 0⟩]),
      row.cluster = "Не покупали" ∧
      row.clients = ([⟨"c1", 0, 0, 0⟩, ⟨"c2", 0, 0, 0⟩, ⟨"c3", 0, 0, 0⟩,
        ⟨"c4", 0, 0, 0⟩, ⟨"c5", 0, 0, 0⟩, ⟨"c6", 0, 0, 0⟩, ⟨"c7", 0, 0, 0⟩,
        ⟨"c8", 0, 0, 0⟩, ⟨"c9", 0, 0, 0⟩,
        ⟨"c10", 0, 0, 0⟩] : List PerClientRow).length ∧
      row.pct = 100 :=
  (C9_cluster_summary_completeness [] [] [] [] (fun s => none) 0 2
    [⟨"c1", 0, 0, 0⟩, ⟨"c2", 0, 0, 0⟩, ⟨"c3", 0, 0, 0⟩, ⟨"c4", 0, 0, 0⟩,
     ⟨"c5", 0, 0, 0⟩, ⟨"c6", 0, 0, 0⟩, ⟨"c7", 0, 0, 0⟩, ⟨"c8", 0, 0, 0⟩,
     ⟨"c9", 0, 0, 0⟩, ⟨"c10", 0, 0, 0⟩]
    (by decide) (by decide)).2.1

/-! ## Input loading (src/app.py lines 200-220) -/

/-- A raw spreadsheet cell as seen after pd.read_excel: empty (NaN),
numeric, or text.  Text cells are treated as non-numeric under
pd.to_numeric (numeric-looking text is outside what the claims exercise). -/
inductive Cell
  | blank
  | num (q : ℚ)
  | text (s : String)
deriving DecidableEq, Repr

/-- One raw 5-column row of an uploaded table, read positionally as
category, period_main, period_sub, quantity, client_id. -/
structure RawRow where
  category : Cell
  periodMain : Cell
  periodSub : Cell
  quantity : Cell
  clientId : Cell
deriving DecidableEq, Repr

/-- pd.to_numeric(errors="coerce") on one cell: numbers pass through,
blanks and text coerce to NaN (modelled as none). -/
def toNumeric : Cell → Option ℚ
  | Cell.num q => some q
  | _ => none

/-- numpy astype(int) truncation toward zero on an exact rational. -/
def truncToInt (q : ℚ) : ℤ := if 0 ≤ q then ⌊q⌋ else -⌊-q⌋

/-- Python str() of one cell (a missing cell prints as "nan"; the numeric
print format is irrelevant to the claims). -/
def cellToStr : Cell → String
  | Cell.blank => "nan"
  | Cell.num q => toString q
  | Cell.text s => s

/-- _norm_client_id of src/app.py on one stringified id: strip whitespace,
then drop one trailing ".0" so 348385 and 348385.0 coincide. -/
def normClientId (s : String) : String :=
  let t := pyStrip s
  if t.endsWith ".0" then t.dropRight 2 else t

/-- A normalized transaction row produced by load_and_normalize (the period
cells stay raw; they are stringified and trimmed later, in
merge_and_prepare). -/
structure LoadedRow where
  category : String
  periodMain : Cell
  periodSub : Cell
  quantity : ℤ
  clientId : String
deriving DecidableEq, Repr

/-- The per-row transformation of load_and_normalize in src/app.py:
category stringified and stripped, quantity coerced to numeric with NaN
filled by 0 and cast to int, client id normalized. -/
def normalizeRow (r : RawRow) : LoadedRow :=
  { category := pyStrip (cellToStr r.category)
    periodMain := r.periodMain
    periodSub := r.periodSub
    quantity := truncToInt ((toNumeric r.quantity).getD 0)
    clientId := normClientId (cellToStr r.clientId) }

/-- load_and_normalize of src/app.py: keep the five positional columns,
drop the rows whose period_main or client_id is missing, and normalize
each remaining row. -/
def load_and_normalize (rows : List RawRow) : List LoadedRow :=
  (rows.filter (fun r =>
    !(decide (r.periodMain = Cell.blank)) &&
    !(decide (r.clientId = Cell.blank)))).map normalizeRow

/-- Counterexample to claim C10 as stated: a numeric quantity of −3 on a
complete row survives load_and_normalize unchanged, so a retained row may
carry a negative quantity — the code never clips quantities at 0. -/
theorem C10_counterexample_negative_quantity :
    (load_and_normalize [⟨Cell.text "A", Cell.text "2025", Cell.text "1",
        Cell.num (-3), Cell.text "7"⟩]).map LoadedRow.quantity = [-3] ∧
    ¬ (∀ out ∈ load_and_normalize [⟨Cell.text "A", Cell.text "2025",
        Cell.text "1", Cell.num (-3), Cell.text "7"⟩], 0 ≤ out.quantity) := by
  constructor
  · rfl
  · intro hall
    have h1 := hall (normalizeRow ⟨Cell.text "A", Cell.text "2025",
      Cell.text "1", Cell.num (-3), Cell.text "7"⟩) (by decide)
    revert h1
    decide

/-- Claim C10 (amended) — Input loading postcondition.  Retained rows are
exactly the input rows whose period_main and client_id cells are present,
each transformed by normalizeRow; the quantity field is an integer, equal
to the truncation of the numeric value of the quantity cell, and 0
whenever that cell is non-numeric.  (The original claim also asserted
quantity ≥ 0; the code does not enforce that — see the counterexample.) -/
theorem C10_load_postconditions (rows : List RawRow) :
    (∀ out ∈ load_and_normalize rows,
      ∃ src ∈ rows, src.periodMain ≠ Cell.blank ∧ src.clientId ≠ Cell.blank ∧
        out = normalizeRow src) ∧
    (∀ src ∈ rows, src.periodMain ≠ Cell.blank → src.clientId ≠ Cell.blank →
      normalizeRow src ∈ load_and_normalize rows) ∧
    (∀ src : RawRow, toNumeric src.quantity = none →
      (normalizeRow src).quantity = 0) ∧
    (∀ (src : RawRow) (q : ℚ), toNumeric src.quantity = some q →
      (normalizeRow src).quantity = truncToInt q) := by
  refine ⟨?_, ?_, ?_, ?_⟩
  · intro out hout
    unfold load_and_normalize at hout
    rw [List.mem_map] at hout
    obtain ⟨src, hsrc, hmap⟩ := hout
    rw [List.mem_filter] at hsrc
    refine ⟨src, hsrc.1, ?_, ?_, hmap.symm⟩ <;>
      · have := hsrc.2
        simp only [Bool.and_eq_true, Bool.not_eq_eq_eq_not, Bool.not_true,
          decide_eq_false_iff_not] at this
        tauto
  · intro src hsrc h1 h2
    unfold load_and_normalize
    rw [List.mem_map]
    refine ⟨src, ?_, rfl⟩
    rw [List.mem_filter]
    refine ⟨hsrc, ?_⟩
    simp [h1, h2]
  · intro src hnone
    unfold normalizeRow
    rw [hnone]
    rfl
  · intro src q hsome
    unfold normalizeRow
    rw [hsome]
    rfl

/-- Witness for the amended C10: a complete row with quantity 2 is retained
and normalized. -/
theorem C10_load_postconditions_witness :
    normalizeRow ⟨Cell.text "A", Cell.text "2025", Cell.text "1",
        Cell.num 2, Cell.text "7"⟩ ∈
      load_and_normalize [⟨Cell.text "A", Cell.text "2025", Cell.text "1",
        Cell.num 2, Cell.text "7"⟩] :=
  (C10_load_postconditions [⟨Cell.text "A", Cell.text "2025", Cell.text "1",
      Cell.num 2, Cell.text "7"⟩]).2.1
    ⟨Cell.text "A", Cell.text "2025", Cell.text "1", Cell.num 2,
      Cell.text "7"⟩ (by decide) (by decide) (by decide)

/-- Witness for C6: the spec scenario sequence evaluated through the
theorem. -/
theorem C6_gap_detection_witness :
    collectGaps [true, false, false, false, true] = [(1, 3)] :=
  C6_gap_detection.2.1

/-- Witness for C8: a one-row table produces ranks 0..N−1. -/
theorem C8_period_timeline_witness :
    (buildTimeline [("2025", "1")]).map Prod.snd =
      List.range (buildTimeline [("2025", "1")]).length :=
  (C8_period_timeline [("2025", "1")]).2.2.1
